import Mathlib

set_option maxHeartbeats 1000000
set_option maxRecDepth 8000

/-!
Verification of the result-aggregation core of the LLM-extractor repository
(src/modules/llm_extractor.py).  Python strings are modelled as lists of
characters; the per-question answer dictionaries as association lists; the
external Gemini service, the filesystem and the YAML loader as explicit
parameters.  Each modelled function cites the source lines it embeds.
-/

/-- Python strings, modelled as lists of characters. -/
abbrev S := List Char

/-- The character list of a Lean string literal. -/
def chs (s : String) : S := s.data

/-- The whitespace characters stripped by Python's str.strip() (ASCII part:
space, tab, newline, carriage return, vertical tab, form feed). -/
def pyIsSpace (c : Char) : Bool :=
  c == ' ' || c == '\t' || c == '\n' || c == '\r' || c == Char.ofNat 11 || c == Char.ofNat 12

/-- Python s.lstrip(). -/
def pyTrimLeft (s : S) : S := s.dropWhile pyIsSpace

/-- Python s.rstrip(). -/
def pyTrimRight (s : S) : S := (s.reverse.dropWhile pyIsSpace).reverse

/-- Python s.strip(). -/
def pyTrim (s : S) : S := pyTrimRight (pyTrimLeft s)

/-- Python s.startswith(pre). -/
def pyStartsWith (pre s : S) : Bool := s.take pre.length == pre

/-- Python s.lower() (ASCII case folding; no input in the claims contains a
character whose Python lowercasing differs from the ASCII rule). -/
def pyLower (s : S) : S := s.map Char.toLower

/-- Extend the first line of a line list with a leading character. -/
def consHead (c : Char) : List S → List S
  | [] => [[c]]
  | l :: ls => (c :: l) :: ls

/-- Extend the first line of a line list with a leading string. -/
def consHeadS (a : S) : List S → List S
  | [] => [a]
  | l :: ls => (a ++ l) :: ls

/-- Python s.split('\n'): the list of lines of a string (an empty string has
one empty line, a trailing newline produces a final empty line). -/
def linesOf : S → List S
  | [] => [[]]
  | c :: rest => if c = '\n' then [] :: linesOf rest else consHead c (linesOf rest)

/-- Python '\n'.join(lines): inverse of linesOf. -/
def joinNL : List S → S
  | [] => []
  | [l] => l
  | l :: ls => l ++ '\n' :: joinNL ls

/-- Python s.replace(pat, "", 1) for a non-empty pat: delete the leftmost
occurrence of pat, if any. -/
def delFirst (pat : S) : S → S
  | [] => []
  | c :: rest =>
    if pyStartsWith pat (c :: rest) then (c :: rest).drop pat.length
    else c :: delFirst pat rest

/-- Python needle in hay for strings: substring containment. -/
def isSubstr (needle : S) : S → Bool
  | [] => needle == []
  | c :: rest => pyStartsWith needle (c :: rest) || isSubstr needle rest

/-- The character of a decimal digit. -/
def digitChar (d : Nat) : Char :=
  if d = 0 then '0' else if d = 1 then '1' else if d = 2 then '2' else if d = 3 then '3'
  else if d = 4 then '4' else if d = 5 then '5' else if d = 6 then '6' else if d = 7 then '7'
  else if d = 8 then '8' else '9'

/-- Decimal digits with a structural fuel bound (fuel larger than the digit
count; n + 1 always suffices). -/
def natCharsAux : Nat → Nat → S
  | 0, _ => []
  | fuel + 1, n =>
    if n < 10 then [digitChar n]
    else natCharsAux fuel (n / 10) ++ [digitChar (n % 10)]

/-- Decimal digits of a natural number, as Python str(n). -/
def natChars (n : Nat) : S := natCharsAux (n + 1) n

/-- Python enumerate(xs, i). -/
def enumFrom (i : Nat) : List α → List (Nat × α)
  | [] => []
  | a :: as => (i, a) :: enumFrom (i + 1) as

/-- The string contains no newline character. -/
def nlFree (s : S) : Prop := '\n' ∉ s

/-- JSON values as produced by Python's json.loads (numbers collapsed to Int,
which no claim depends on; object fields keep insertion order and have the
unique keys of the resulting Python dict). -/
inductive JValue where
  | jstr (s : S)
  | jnum (n : Int)
  | jbool (b : Bool)
  | jnull
  | jarr (elems : List JValue)
  | jobj (fields : List (S × JValue))

/-- Python dict lookup d[k] / d.get(k) on an association list. -/
def pyGet (d : List (S × V)) (k : S) : Option V :=
  (d.find? (fun p => p.1 == k)).map (fun p => p.2)

/-- Python dict assignment d[k] = v: overwrite in place if the key exists
(keeping its position), else append. -/
def dictSet (d : List (S × V)) (k : S) (v : V) : List (S × V) :=
  if d.any (fun p => p.1 == k) then d.map (fun p => if p.1 == k then (k, v) else p)
  else d ++ [(k, v)]

/-- The Python type name of a json value, as it appears in TypeError messages. -/
def pyTypeName : JValue → S
  | .jstr _ => chs "str"
  | .jnum _ => chs "int"
  | .jbool _ => chs "bool"
  | .jnull => chs "NoneType"
  | .jarr _ => chs "list"
  | .jobj _ => chs "dict"

/-- Python key in v for a json.loads result v (line 252): key membership for a
dict, element equality for a list (a string never equals a non-string), substring
test for a string, TypeError (carried as .error with Python's message) otherwise. -/
def pyContains (v : JValue) (k : S) : Except S Bool :=
  match v with
  | .jobj fs => .ok (fs.any (fun p => p.1 == k))
  | .jarr es => .ok (es.any (fun e => match e with | .jstr s => s == k | _ => false))
  | .jstr s => .ok (isSubstr k s)
  | _ => .error (chs "argument of type '" ++ pyTypeName v ++ chs "' is not iterable")

/-- all(key in result for key in ks) (line 252): short-circuits on the first
False; a TypeError raised by in propagates. -/
def allKeysIn (v : JValue) : List S → Except S Bool
  | [] => .ok true
  | k :: rest =>
    match pyContains v k with
    | .error e => .error e
    | .ok false => .ok false
    | .ok true => allKeysIn v rest

/-- The structured three-field answer shape (spec: AnswerRecord): the Python
dicts built by the fallback and error paths, and the shape required of the
preferred JSON path. -/
structure AnswerRecord where
  short_answer : S
  long_answer : S
  quote : S
deriving DecidableEq

/-- The dict literal built at lines 318-322 / 266-270. -/
def recDict (r : AnswerRecord) : JValue :=
  .jobj [(chs "short_answer", .jstr r.short_answer),
         (chs "long_answer", .jstr r.long_answer),
         (chs "quote", .jstr r.quote)]

/-- A line whose lowercased, stripped form starts with 'short answer:' (line 309). -/
def isShortLine (l : S) : Bool := pyStartsWith (chs "short answer:") (pyTrim (pyLower l))

/-- A line whose lowercased, stripped form starts with 'quote:' (line 311). -/
def isQuoteLine (l : S) : Bool := pyStartsWith (chs "quote:") (pyTrim (pyLower l))

/-- A line whose lowercased, stripped form starts with 'long answer:' (line 313). -/
def isLongLine (l : S) : Bool := pyStartsWith (chs "long answer:") (pyTrim (pyLower l))

/-- The loop of _create_fallback_response (lines 306-316): scan the lines,
keeping the last 'short answer:' / 'quote:' captures seen so far; the first
'long answer:' line ends the scan, capturing the whole remaining text with the
first occurrence of the exact lowercase label 'long answer:' deleted and the
result stripped.  The slices line[13:] / line[6:] are taken from the original
line (not its stripped, lowered form), exactly as in the source. -/
def fallbackScan (shortA quoteA : S) : List S → S × S × Option S
  | [] => (shortA, quoteA, none)
  | l :: rest =>
    if isShortLine l then fallbackScan (pyTrim (l.drop 13)) quoteA rest
    else if isQuoteLine l then fallbackScan shortA (pyTrim (l.drop 6)) rest
    else if isLongLine l then
      (shortA, quoteA, some (pyTrim (delFirst (chs "long answer:") (joinNL (l :: rest)))))
    else fallbackScan shortA quoteA rest

/-- _create_fallback_response (lines 290-322): defaults are short = "NA",
quote = "NA", long = the whole raw text. -/
def _create_fallback_response (raw_text : S) : AnswerRecord :=
  let r := fallbackScan (chs "NA") (chs "NA") (linesOf raw_text)
  ⟨r.1, r.2.2.getD raw_text, r.2.1⟩

/-- Outcome of one Gemini QA call in query_gemini (lines 198-260): either an
exception was raised before response.text was parsed (upload handle use,
generation, transport), or a response text was produced together with the
result of json.loads on it (none models a JSONDecodeError). -/
inductive GenOutcome where
  | raised (msg : S)
  | responded (rawText : S) (decoded : Option JValue)

/-- The three keys required at line 252. -/
def requiredKeys : List S := [chs "short_answer", chs "long_answer", chs "quote"]

/-- The message prefix of the error record (lines 266-270). -/
def errText (msg : S) : S := chs "Error querying Gemini: " ++ msg

/-- The degraded record substituted when the QA call raises (lines 262-270). -/
def errRecord (msg : S) : JValue := recDict ⟨errText msg, errText msg, chs "NA"⟩

/-- query_gemini (lines 186-270) after the external call: the preferred JSON
path returns the decoded value itself when all three keys are present (line
253 returns result unchanged); a decode failure or missing key falls back to
_create_fallback_response; a TypeError from key in result (non-iterable
decoded value) escapes the inner try and is absorbed by the outer handler as
an error record, like any other raised exception. -/
def query_gemini : GenOutcome → JValue
  | .raised msg => errRecord msg
  | .responded raw decoded =>
    match decoded with
    | none => recDict (_create_fallback_response raw)
    | some v =>
      match allKeysIn v requiredKeys with
      | .ok true => v
      | .ok false => recDict (_create_fallback_response raw)
      | .error e => errRecord e

/-- The per-question loop of process_pdf (lines 490-498): one QA call per
question in order, the answers collected into the results dict; outcome gives
each question's external-call outcome.  A failed call is already converted to
an error record inside query_gemini, so the loop itself never stops early. -/
def process_pdf (questions : List S) (outcome : S → GenOutcome) : List (S × JValue) :=
  questions.foldl (fun results q => dictSet results q (query_gemini (outcome q))) []

/-- Python repr() of a string (quote escaping is not modelled; no claim
evaluates repr on a string containing a quote). -/
def pyReprS (s : S) : S := Char.ofNat 39 :: s ++ [Char.ofNat 39]

mutual
/-- Python repr() of a json value, used by str() on lists and dicts (float
formatting is not modelled; no claim evaluates repr). -/
def pyRepr : JValue → S
  | .jstr s => pyReprS s
  | .jnum n => (toString n).data
  | .jbool b => if b then chs "True" else chs "False"
  | .jnull => chs "None"
  | .jarr es => '[' :: pyReprList es ++ [']']
  | .jobj fs => Char.ofNat 123 :: pyReprFields fs ++ [Char.ofNat 125]

/-- Comma-separated reprs of list elements. -/
def pyReprList : List JValue → S
  | [] => []
  | [v] => pyRepr v
  | v :: vs => pyRepr v ++ chs ", " ++ pyReprList vs

/-- Comma-separated key: value reprs of dict fields. -/
def pyReprFields : List (S × JValue) → S
  | [] => []
  | [(k, v)] => pyReprS k ++ chs ": " ++ pyRepr v
  | (k, v) :: ps => pyReprS k ++ chs ": " ++ pyRepr v ++ chs ", " ++ pyReprFields ps
end

/-- Python str() of a json value: identity on strings, repr-like otherwise. -/
def pyStrV : JValue → S
  | .jstr s => s
  | v => pyRepr v

/-- The scan of the legacy branch of extract_short_answer (lines 396-400):
here (unlike _create_fallback_response) the line is stripped before both the
check and the slice. -/
def legacyShortScan : List S → Option S
  | [] => none
  | l :: rest =>
    if pyStartsWith (chs "short answer:") (pyLower (pyTrim l)) then
      some (pyTrim ((pyTrim l).drop 13))
    else legacyShortScan rest

/-- extract_short_answer (lines 380-407): dict answers project their
short_answer field ("NA" when absent); any other answer is stringified and
scanned for a short answer: line, defaulting to its first line (truncated to
97 characters plus "..." beyond 100). -/
def extract_short_answer (structured_answer : JValue) : JValue :=
  match structured_answer with
  | .jobj fs => (pyGet fs (chs "short_answer")).getD (.jstr (chs "NA"))
  | v =>
    .jstr
      (match legacyShortScan (linesOf (pyStrV v)) with
       | some s => s
       | none =>
         let first := pyTrim ((linesOf (pyStrV v)).headD [])
         if first.length ≤ 100 then first else first.take 97 ++ chs "...")

/-- Whitespace-separated words of a string (helper for the spec-modelled
column-name fallback). -/
def wordsAux (cur : S) : S → List S
  | [] => if cur = [] then [] else [cur.reverse]
  | c :: rest =>
    if pyIsSpace c then
      if cur = [] then wordsAux [] rest else cur.reverse :: wordsAux [] rest
    else wordsAux (c :: cur) rest

/-- The words of a string. -/
def wordsOf (s : S) : List S := wordsAux [] s

/-- Greedily take words while the underscore-joined name stays within the
character budget. -/
def takeWords (budget : Nat) : List S → List S
  | [] => []
  | w :: ws => if w.length ≤ budget then w :: takeWords (budget - w.length - 1) ws else []

/-- Words joined with underscores. -/
def joinUnderscore : List S → S
  | [] => []
  | [w] => w
  | w :: ws => w ++ '_' :: joinUnderscore ws

/-- The name derived from one question: its leading words, up to about 25
characters, joined with underscores. -/
def deriveColName (q : S) : S := joinUnderscore (takeWords 25 (wordsOf q))

/-- Modelled from the spec: _create_fallback_column_names is called at
src/modules/llm_extractor.py:373 and :377 but its definition is not under
src/.  Spec 4.3: "take the question text, strip to its first ~25 characters
worth of meaningful words, replace whitespace with underscores, and apply a
positional disambiguator (Question_ i+1) if derivation yields an empty or
duplicate name."  Meaningful words are read as the question's whitespace
separated words; seen carries the names already produced. -/
def _create_fallback_column_names_go (i : Nat) (seen : List S) : List S → List S
  | [] => []
  | q :: qs =>
    let base := deriveColName q
    let name := if base = [] ∨ base ∈ seen then chs "Question_" ++ natChars (i + 1) else base
    name :: _create_fallback_column_names_go (i + 1) (name :: seen) qs

/-- Modelled from the spec: the deterministic column-name fallback (spec 4.3);
see _create_fallback_column_names_go. -/
def _create_fallback_column_names (questions : List S) : List S :=
  _create_fallback_column_names_go 0 [] questions

/-- Outcome of the naming call in generate_column_names_from_questions (lines
334-362): raised covers both a raised call and a json.loads failure on its
text (both land in the except handler); responded carries the decoded json
value. -/
inductive NamingOutcome where
  | raised
  | responded (decoded : JValue)

/-- generate_column_names_from_questions (lines 324-377): the decoded value is
used only when it is a list whose length equals the question count; any other
shape, length mismatch or raised exception falls back to
_create_fallback_column_names. -/
def generate_column_names_from_questions (questions : List S) (o : NamingOutcome) :
    List JValue :=
  match o with
  | .raised => (_create_fallback_column_names questions).map .jstr
  | .responded v =>
    match v with
    | .jarr es =>
      if es.length = questions.length then es
      else (_create_fallback_column_names questions).map .jstr
    | _ => (_create_fallback_column_names questions).map .jstr

/-- The effective column name for question index i (line 429):
column_names[i] if in range, else Question_ i+1. -/
def xlsxColName (column_names : List S) (i : Nat) : S :=
  column_names.getD i (chs "Question_" ++ natChars (i + 1))

/-- One row dict of export_to_xlsx (lines 424-434): PDF_Title first, then one
cell per question in question order, keyed by the effective column name, the
cell being the short-answer projection of qa_results.get(question, ) with a
dict default. -/
def xlsxRow (questions column_names : List S) (pdf_title : S)
    (qa_results : List (S × JValue)) : List (S × JValue) :=
  (enumFrom 0 questions).foldl
    (fun row iq =>
      dictSet row (xlsxColName column_names iq.1)
        (extract_short_answer ((pyGet qa_results iq.2).getD (.jobj []))))
    [(chs "PDF_Title", .jstr pdf_title)]

/-- The data_rows list of export_to_xlsx (lines 422-434): one row per entry of
all_results, in insertion order (all_results is a dict keyed by title, so its
entries have distinct titles).  The DataFrame/worksheet formatting below line
437 is cosmetic and not modelled. -/
def export_to_xlsx_rows (all_results : List (S × List (S × JValue)))
    (questions column_names : List S) : List (List (S × JValue)) :=
  all_results.map (fun tr => xlsxRow questions column_names tr.1 tr.2)

/-- _format_for_blockquote (lines 579-601): empty or "NA" content becomes a
single quoted line; otherwise every non-blank line is prefixed with "> " and
every blank line becomes a bare ">". -/
def _format_for_blockquote (content : S) : S :=
  if content = [] ∨ content = chs "NA" then chs "> " ++ content
  else joinNL ((linesOf content).map (fun l => if pyTrim l ≠ [] then chs "> " ++ l else chs ">"))

/-- The .get(key, 'NA') of lines 550-552 followed by _format_for_blockquote:
defined when the retrieved value is a string.  A non-string value makes the
source raise inside _format_for_blockquote (line 592), modelled as none (the
truthiness edge cases 0/False/None, which the source would format, are not
modelled; no claim supplies a non-string field). -/
def fieldForBQ (fs : List (S × JValue)) (k : S) : Option S :=
  match pyGet fs k with
  | none => some (chs "NA")
  | some (.jstr s) => some s
  | some _ => none

/-- One question block of update_markdown_file (lines 540-562): the structured
branch formats the three fields as blockquotes; any non-dict answer takes the
legacy branch, which prefixes every line of its str() with "> ". -/
def render_answer (i : Nat) (question : S) : JValue → Option S
  | .jobj fs =>
    match fieldForBQ fs (chs "short_answer"), fieldForBQ fs (chs "long_answer"),
        fieldForBQ fs (chs "quote") with
    | some sa, some la, some qt =>
      some (chs "**Q" ++ natChars i ++ chs ":** " ++ question ++ chs "\n\n"
        ++ chs "> **Short Answer:**\n" ++ _format_for_blockquote sa ++ chs "\n\n"
        ++ chs "> **Long Answer:**\n" ++ _format_for_blockquote la ++ chs "\n\n"
        ++ chs "> **Quote:**\n" ++ _format_for_blockquote qt ++ chs "\n\n")
    | _, _, _ => none
  | v =>
    some (chs "**Q" ++ natChars i ++ chs ":** " ++ question ++ chs "\n\n"
      ++ joinNL ((linesOf (pyStrV v)).map (fun l => chs "> " ++ l)) ++ chs "\n\n")

/-- The question loop of update_markdown_file (line 540): enumerate the loaded
question list from 1; questions missing from qa_results are skipped but still
consume their index. -/
def render_blocks (qa_results : List (S × JValue)) (i : Nat) : List S → Option S
  | [] => some []
  | q :: qs =>
    match pyGet qa_results q with
    | none => render_blocks qa_results (i + 1) qs
    | some v =>
      match render_answer i q v, render_blocks qa_results (i + 1) qs with
      | some b, some rest => some (b ++ rest)
      | _, _ => none

/-- The new_section string of update_markdown_file (lines 528-562): leading
newline, level-2 heading, blank line, the processed-timestamp line, blank
line, then the question blocks.  timestamp stands for
datetime.now().strftime(...) and questions_list for the list loaded from
config/questions.yaml at lines 532-538 (within one run it is the run's
question list; the load-failure fallback to qa_results.keys() is not
modelled). -/
def render_section (pdf_title timestamp : S) (questions_list : List S)
    (qa_results : List (S × JValue)) : Option S :=
  (render_blocks qa_results 1 questions_list).map
    (fun blocks => chs "\n## " ++ pdf_title ++ chs "\n\n*Processed on: " ++ timestamp
      ++ chs "*\n\n" ++ blocks)

/-- The replacement-template character escapes accepted by Python's
sre_parse.parse_template. -/
def escChar (c : Char) : Option Char :=
  if c = '\\' then some '\\'
  else if c = 'n' then some '\n'
  else if c = 't' then some '\t'
  else if c = 'r' then some '\r'
  else if c = 'v' then some (Char.ofNat 11)
  else if c = 'f' then some (Char.ofNat 12)
  else if c = 'a' then some (Char.ofNat 7)
  else if c = 'b' then some (Char.ofNat 8)
  else if c = '0' then some (Char.ofNat 0)
  else none

/-- Python's parsing of the re.sub replacement string (line 568) for the
pattern of line 565, which has no capture groups: known character escapes are
decoded; any other escape raises re.error "bad escape" (so does a trailing
backslash), and a numeric group reference raises "invalid group reference"
since the pattern has no groups; both are modelled as none.  (The
whole-match reference g<0> and octal escapes are not modelled; no claim
involves them.)  A template with no backslash denotes itself. -/
def parse_template : S → Option S
  | [] => some []
  | c :: rest =>
    if c = '\\' then
      match rest with
      | [] => none
      | d :: rest2 =>
        match escChar d with
        | some e => (parse_template rest2).map (fun t => e :: t)
        | none => none
    else (parse_template rest).map (fun t => c :: t)

/-- A line at which the lookahead (?=^## ) of the section pattern (line 565)
succeeds: it starts with "## ". -/
def isH2 (l : S) : Bool := pyStartsWith (chs "## ") l

/-- The heading line of a section. -/
def headingOf (pdf_title : S) : S := chs "## " ++ pdf_title

/-- re.search of the section pattern (line 566): the document has a full line
equal to the section heading. -/
def hasSection (pdf_title : S) (content : S) : Bool :=
  (linesOf content).any (fun l => l == headingOf pdf_title)

/-- The scanner of re.sub of the section pattern (line 565), working on the
document's lines.  Each match starts at a full line equal to hd and extends
(lazily, with DOTALL) up to but excluding the next line starting with "## ",
or to the end of the document.  inMatch = true means the scanner is inside a
matched region: lines are swallowed until one starting with "## " (whose
preceding newline also belongs to the match, so the replacement is glued
directly onto it, with no separator emitted) or the end of the document.
Scanning for further matches resumes at the excluded heading line. -/
def subGo (hd repl : S) (inMatch : Bool) : List S → S
  | [] => []
  | l :: ls =>
    if inMatch then
      if isH2 l then
        if l = hd then repl ++ subGo hd repl true ls
        else
          match ls with
          | [] => l
          | _ :: _ => l ++ '\n' :: subGo hd repl false ls
      else subGo hd repl true ls
    else
      if l = hd then repl ++ subGo hd repl true ls
      else
        match ls with
        | [] => l
        | _ :: _ => l ++ '\n' :: subGo hd repl false ls

/-- re.sub of the section pattern (line 568) on the document's lines; see
subGo. -/
def subAll (hd repl : S) (ls : List S) : S := subGo hd repl false ls

/-- update_markdown_file (lines 512-577).  existing is the current content of
the report file (empty when the file does not exist); timestamp and
questions_list are the run parameters described at render_section.  The
result is the content written back, or none when the call raises (re.error
from the replacement template, or a non-string field reaching
_format_for_blockquote). -/
def update_markdown_file (existing pdf_title timestamp : S) (questions_list : List S)
    (qa_results : List (S × JValue)) : Option S :=
  match render_section pdf_title timestamp questions_list qa_results with
  | none => none
  | some new_section =>
    if hasSection pdf_title existing then
      match parse_template (pyTrim new_section) with
      | none => none
      | some repl => some (subAll (headingOf pdf_title) repl (linesOf existing))
    else some (existing ++ new_section)

/-- The structured-branch block for a record answer (total form of
render_answer at recDict r). -/
def renderR_answer (i : Nat) (question : S) (r : AnswerRecord) : S :=
  chs "**Q" ++ natChars i ++ chs ":** " ++ question ++ chs "\n\n"
    ++ chs "> **Short Answer:**\n" ++ _format_for_blockquote r.short_answer ++ chs "\n\n"
    ++ chs "> **Long Answer:**\n" ++ _format_for_blockquote r.long_answer ++ chs "\n\n"
    ++ chs "> **Quote:**\n" ++ _format_for_blockquote r.quote ++ chs "\n\n"

/-- render_blocks restricted to record-valued results (total). -/
def renderR_blocks (qa : List (S × AnswerRecord)) (i : Nat) : List S → S
  | [] => []
  | q :: qs =>
    match pyGet qa q with
    | none => renderR_blocks qa (i + 1) qs
    | some r => renderR_answer i q r ++ renderR_blocks qa (i + 1) qs

/-- render_section restricted to record-valued results (total). -/
def renderR (pdf_title timestamp : S) (questions_list : List S)
    (qa : List (S × AnswerRecord)) : S :=
  chs "\n## " ++ pdf_title ++ chs "\n\n*Processed on: " ++ timestamp ++ chs "*\n\n"
    ++ renderR_blocks qa 1 questions_list

/-- A record-valued result set as the dict-of-dicts the source passes around. -/
def qaJ (qa : List (S × AnswerRecord)) : List (S × JValue) :=
  qa.map (fun p => (p.1, recDict p.2))

/-- renderR without its leading newline character. -/
def renderCore (pdf_title timestamp : S) (questions_list : List S)
    (qa : List (S × AnswerRecord)) : S :=
  chs "## " ++ pdf_title ++ chs "\n\n*Processed on: " ++ timestamp ++ chs "*\n\n"
    ++ renderR_blocks qa 1 questions_list

/-- The lines of _format_for_blockquote content. -/
def bqLines (content : S) : List S :=
  if content = [] ∨ content = chs "NA" then [chs "> " ++ content]
  else (linesOf content).map (fun l => if pyTrim l ≠ [] then chs "> " ++ l else chs ">")

/-- The lines contributed by one question block (followed by the blank line
that separates it from what follows). -/
def blockFront (i : Nat) (q : S) (r : AnswerRecord) : List S :=
  (chs "**Q" ++ natChars i ++ chs ":** " ++ q) :: [] :: chs "> **Short Answer:**"
    :: (bqLines r.short_answer ++ [] :: chs "> **Long Answer:**"
    :: (bqLines r.long_answer ++ [] :: chs "> **Quote:**"
    :: (bqLines r.quote ++ [[]])))

/-- The lines contributed by the question loop. -/
def blocksLines (qa : List (S × AnswerRecord)) (i : Nat) : List S → List S
  | [] => []
  | q :: qs =>
    match pyGet qa q with
    | none => blocksLines qa (i + 1) qs
    | some r => blockFront i q r ++ blocksLines qa (i + 1) qs

/-- The timestamp line of a section. -/
def tsLine (timestamp : S) : S := chs "*Processed on: " ++ timestamp ++ chs "*"

/-- Concrete result sets and report documents used to evaluate the merge on
the inputs that exhibit its behavior (C1, C2, C10). -/
def qaA0 : List (S × AnswerRecord) := [(chs "q", ⟨chs "a", chs "b", chs "NA"⟩)]

/-- Result set for the second document of the two-section report. -/
def qaB0 : List (S × AnswerRecord) := [(chs "q", ⟨chs "c", chs "d", chs "NA"⟩)]

/-- Re-processed results for the first document. -/
def qaA1 : List (S × AnswerRecord) := [(chs "q", ⟨chs "a2", chs "b2", chs "NA"⟩)]

/-- A report as the program produces it: header, then sections Paper A and
Paper B appended in that order. -/
def twoSectionDoc : S :=
  chs "# Extraction Results\n\nGenerated on: G\n\n---\n\n"
    ++ renderR (chs "Paper A") (chs "T0") [chs "q"] qaA0
    ++ renderR (chs "Paper B") (chs "T0") [chs "q"] qaB0

/-- A one-section report for the template-escape evaluation. -/
def oneSectionDoc : S := chs "\n## A\n\nold\n\n"

/-- A result whose long answer contains the two characters backslash d. -/
def qaEsc : List (S × AnswerRecord) := [(chs "q", ⟨chs "s", chs "uses \\d here", chs "NA"⟩)]

theorem consHead_ne_nil (c : Char) (L : List S) : consHead c L ≠ [] := by
  cases L <;> simp [consHead]

theorem linesOf_ne_nil (s : S) : linesOf s ≠ [] := by
  induction s with
  | nil => simp [linesOf]
  | cons c rest ih =>
    by_cases hc : c = '\n'
    · simp [linesOf, hc]
    · simp [linesOf, hc, consHead_ne_nil]

theorem linesOf_cons_nl (s : S) : linesOf ('\n' :: s) = [] :: linesOf s := by
  simp [linesOf]

theorem consHead_append (c : Char) (L M : List S) (hL : L ≠ []) :
    consHead c (L ++ M) = consHead c L ++ M := by
  cases L with
  | nil => exact absurd rfl hL
  | cons l ls => simp [consHead]

theorem linesOf_append_nl (a b : S) : linesOf (a ++ '\n' :: b) = linesOf a ++ linesOf b := by
  induction a with
  | nil => simp [linesOf_cons_nl, linesOf]
  | cons c rest ih =>
    by_cases hc : c = '\n'
    · subst hc
      simp [List.cons_append, linesOf_cons_nl, ih]
    · simp only [List.cons_append, linesOf, if_neg hc]
      show consHead c (linesOf (rest ++ '\n' :: b)) = consHead c (linesOf rest) ++ linesOf b
      rw [ih, consHead_append c (linesOf rest) (linesOf b) (linesOf_ne_nil rest)]

theorem linesOf_nlFree (s : S) (h : nlFree s) : linesOf s = [s] := by
  induction s with
  | nil => simp [linesOf]
  | cons c rest ih =>
    have hc : ¬ (c = '\n') := by
      intro e
      subst e
      exact h (List.mem_cons_self _ _)
    have hr : nlFree rest := fun hm => h (List.mem_cons_of_mem _ hm)
    simp [linesOf, hc, ih hr, consHead]

theorem nlFree_of_mem_linesOf {s l : S} (hm : l ∈ linesOf s) : nlFree l := by
  induction s generalizing l with
  | nil =>
    simp [linesOf] at hm
    subst hm
    intro h
    simp at h
  | cons c rest ih =>
    by_cases hc : c = '\n'
    · subst hc
      rw [linesOf_cons_nl] at hm
      rcases List.mem_cons.1 hm with h1 | h2
      · subst h1
        intro h
        simp at h
      · exact ih h2
    · simp only [linesOf, if_neg hc] at hm
      rcases hLR : linesOf rest with _ | ⟨m, ms⟩
      · exact absurd hLR (linesOf_ne_nil rest)
      · rw [hLR] at hm
        simp only [consHead] at hm
        rcases List.mem_cons.1 hm with h1 | h2
        · subst h1
          intro hnl
          rcases List.mem_cons.1 hnl with e | e
          · exact hc e.symm
          · exact (ih (hLR ▸ List.mem_cons_self m ms)) e
        · exact ih (by rw [hLR]; exact List.mem_cons_of_mem _ h2)

theorem joinNL_cons_cons (l m : S) (ms : List S) :
    joinNL (l :: m :: ms) = l ++ '\n' :: joinNL (m :: ms) := rfl

theorem joinNL_linesOf (s : S) : joinNL (linesOf s) = s := by
  induction s with
  | nil => simp [linesOf, joinNL]
  | cons c rest ih =>
    by_cases hc : c = '\n'
    · subst hc
      rw [linesOf_cons_nl]
      rcases hLR : linesOf rest with _ | ⟨m, ms⟩
      · exact absurd hLR (linesOf_ne_nil rest)
      · rw [hLR] at ih
        rw [joinNL_cons_cons]
        simp only [List.nil_append]
        rw [ih]
    · simp only [linesOf, if_neg hc]
      rcases hLR : linesOf rest with _ | ⟨m, ms⟩
      · exact absurd hLR (linesOf_ne_nil rest)
      · rw [hLR] at ih
        simp only [consHead]
        cases ms with
        | nil =>
          simp only [joinNL] at ih ⊢
          rw [ih]
        | cons m2 ms2 =>
          rw [joinNL_cons_cons] at ih
          rw [joinNL_cons_cons]
          rw [← ih]
          simp

theorem linesOf_joinNL (L : List S) (h0 : L ≠ []) (h : ∀ l ∈ L, nlFree l) :
    linesOf (joinNL L) = L := by
  induction L with
  | nil => exact absurd rfl h0
  | cons l ls ih =>
    cases ls with
    | nil =>
      simp only [joinNL]
      exact linesOf_nlFree l (h l (List.mem_cons_self _ _))
    | cons m ms =>
      rw [joinNL_cons_cons, linesOf_append_nl,
        linesOf_nlFree l (h l (List.mem_cons_self _ _)),
        ih (by simp) (fun x hx => h x (List.mem_cons_of_mem _ hx))]
      simp

theorem pyTrimLeft_nl (s : S) : pyTrimLeft ('\n' :: s) = pyTrimLeft s := by
  simp [pyTrimLeft, List.dropWhile_cons, pyIsSpace]

theorem pyTrimLeft_of_not_space (c : Char) (s : S) (hc : pyIsSpace c = false) :
    pyTrimLeft (c :: s) = c :: s := by
  simp [pyTrimLeft, List.dropWhile_cons, hc]

theorem pyTrimRight_cons (c : Char) (s : S) (h : pyTrimRight s ≠ []) :
    pyTrimRight (c :: s) = c :: pyTrimRight s := by
  have h2 : (s.reverse.dropWhile pyIsSpace) ≠ [] := by
    intro e
    exact h (by simp [pyTrimRight, e])
  simp only [pyTrimRight, List.reverse_cons, List.dropWhile_append]
  rw [if_neg (by simpa using h2)]
  simp

theorem pyTrimRight_append (a b : S) (h : pyTrimRight b ≠ []) :
    pyTrimRight (a ++ b) = a ++ pyTrimRight b := by
  have h2 : (b.reverse.dropWhile pyIsSpace) ≠ [] := by
    intro e
    exact h (by simp [pyTrimRight, e])
  simp only [pyTrimRight, List.reverse_append, List.dropWhile_append]
  rw [if_neg (by simpa using h2)]
  simp

theorem pyTrimRight_ne_nil (s : S) (c : Char) (hc : c ∈ s) (hcs : pyIsSpace c = false) :
    pyTrimRight s ≠ [] := by
  intro e
  have h2 : s.reverse.dropWhile pyIsSpace = [] := by
    have := congrArg List.reverse e
    simpa [pyTrimRight] using this
  have hall : ∀ a ∈ s.reverse, pyIsSpace a = true := by
    rw [← List.dropWhile_eq_nil_iff]
    exact h2
  have := hall c (by simpa using hc)
  rw [hcs] at this
  exact Bool.false_ne_true this

theorem pyTrim_cons_not_space (c : Char) (s : S) (hc : pyIsSpace c = false) :
    pyTrim (c :: s) = pyTrimRight (c :: s) := by
  rw [pyTrim, pyTrimLeft_of_not_space c s hc]

theorem pyTrim_nl (s : S) : pyTrim ('\n' :: s) = pyTrim s := by
  rw [pyTrim, pyTrimLeft_nl, pyTrim]

theorem parse_template_of_not_mem (s : S) (h : '\\' ∉ s) : parse_template s = some s := by
  induction s with
  | nil => simp [parse_template]
  | cons c rest ih =>
    have hc : ¬ (c = '\\') := by
      intro e
      subst e
      exact h (List.mem_cons_self _ _)
    have hr : '\\' ∉ rest := fun hm => h (List.mem_cons_of_mem _ hm)
    unfold parse_template
    rw [if_neg hc, ih hr]
    rfl

theorem subGo_true_no_h2 (hd repl : S) (B : List S) (hB : ∀ x ∈ B, isH2 x = false) :
    subGo hd repl true B = [] := by
  induction B with
  | nil => simp [subGo]
  | cons x xs ih =>
    simp [subGo, hB x (List.mem_cons_self _ _)]
    exact ih (fun y hy => hB y (List.mem_cons_of_mem _ hy))

theorem subAll_nil (hd repl : S) : subAll hd repl [] = [] := by
  simp [subAll, subGo]

theorem subAll_heading (hd repl : S) (ls : List S) (hB : ∀ x ∈ ls, isH2 x = false) :
    subAll hd repl (hd :: ls) = repl := by
  simp [subAll, subGo, subGo_true_no_h2 hd repl ls hB]

theorem subAll_cons_ne (hd repl l : S) (x : S) (xs : List S) (hne : l ≠ hd) :
    subAll hd repl (l :: x :: xs) = l ++ '\n' :: subAll hd repl (x :: xs) := by
  simp [subAll, subGo, hne]

theorem pyGet_cons (p : S × V) (d : List (S × V)) (k : S) :
    pyGet (p :: d) k = if p.1 == k then some p.2 else pyGet d k := by
  cases h : (p.1 == k) with
  | true => simp [pyGet, List.find?, h]
  | false => simp [pyGet, List.find?, h]

theorem pyGet_qaJ (qa : List (S × AnswerRecord)) (q : S) :
    pyGet (qaJ qa) q = (pyGet qa q).map recDict := by
  induction qa with
  | nil => rfl
  | cons p ps ih =>
    show pyGet ((p.1, recDict p.2) :: qaJ ps) q = _
    rw [pyGet_cons, pyGet_cons]
    by_cases h : p.1 == q
    · simp [h]
    · simp [h, ih]

theorem hasSection_eq_false_iff (t content : S) :
    hasSection t content = false ↔ ∀ l ∈ linesOf content, l ≠ headingOf t := by
  simp [hasSection]

theorem hasSection_true_of_mem (t content : S) (hm : headingOf t ∈ linesOf content) :
    hasSection t content = true := by
  simpa [hasSection] using hm

theorem isH2_nil : isH2 [] = false := by decide

theorem isH2_cons (c : Char) (x : S) (hc : c ≠ '#') : isH2 (c :: x) = false := by
  have hb : (c == '#') = false := by simp [hc]
  show ((c :: x).take (chs "## ").length == chs "## ") = false
  rw [show (chs "## ").length = 3 from rfl]
  rw [show (c :: x).take 3 = c :: x.take 2 from rfl]
  rw [show chs "## " = '#' :: chs "# " from rfl]
  rw [show ((c :: x.take 2) == ('#' :: chs "# ")) = (c == '#' && (x.take 2 == chs "# ")) from rfl]
  rw [hb]
  rfl

theorem nlFree_append (a b : S) (ha : nlFree a) (hb : nlFree b) : nlFree (a ++ b) := by
  simp only [nlFree, List.mem_append]
  intro h
  rcases h with h | h
  · exact ha h
  · exact hb h

theorem digitChar_ne_nl (d : Nat) : digitChar d ≠ '\n' := by
  unfold digitChar
  repeat' split
  all_goals decide

theorem consHeadS_nil (a : S) : consHeadS a [] = [a] := rfl

theorem consHeadS_cons (a l : S) (ls : List S) : consHeadS a (l :: ls) = (a ++ l) :: ls := rfl

theorem linesOf_append_nlFree (a b : S) (ha : nlFree a) :
    linesOf (a ++ b) = consHeadS a (linesOf b) := by
  induction a with
  | nil =>
    rcases h : linesOf b with _ | ⟨m, ms⟩
    · exact absurd h (linesOf_ne_nil b)
    · simp [h, consHeadS]
  | cons c a ih =>
    have hc : ¬ (c = '\n') := fun e => ha (e ▸ List.mem_cons_self c a)
    have ha2 : nlFree a := fun hm => ha (List.mem_cons_of_mem _ hm)
    show linesOf (c :: (a ++ b)) = _
    simp only [linesOf, if_neg hc]
    rw [ih ha2]
    rcases h : linesOf b with _ | ⟨m, ms⟩
    · exact absurd h (linesOf_ne_nil b)
    · simp [consHead, consHeadS]

theorem nlFree_natCharsAux (fuel n : Nat) : nlFree (natCharsAux fuel n) := by
  induction fuel generalizing n with
  | zero =>
    intro h
    simp [natCharsAux] at h
  | succ fuel ih =>
    rw [natCharsAux]
    split
    · intro h
      simp at h
      exact digitChar_ne_nl n h.symm
    · apply nlFree_append
      · exact ih (n / 10)
      · intro h
        simp at h
        exact digitChar_ne_nl (n % 10) h.symm

theorem nlFree_natChars (n : Nat) : nlFree (natChars n) := nlFree_natCharsAux (n + 1) n

theorem chs_nlnl_split : chs "\n\n" = '\n' :: '\n' :: ([] : S) := rfl

theorem chs_sa_split : chs "> **Short Answer:**\n" = chs "> **Short Answer:**" ++ '\n' :: ([] : S) := rfl

theorem chs_la_split : chs "> **Long Answer:**\n" = chs "> **Long Answer:**" ++ '\n' :: ([] : S) := rfl

theorem chs_qt_split : chs "> **Quote:**\n" = chs "> **Quote:**" ++ '\n' :: ([] : S) := rfl

theorem nlFree_chs_q : nlFree (chs "**Q") := by unfold nlFree; decide

theorem nlFree_chs_colon : nlFree (chs ":** ") := by unfold nlFree; decide

theorem nlFree_chs_sa : nlFree (chs "> **Short Answer:**") := by unfold nlFree; decide

theorem nlFree_chs_la : nlFree (chs "> **Long Answer:**") := by unfold nlFree; decide

theorem nlFree_chs_qt : nlFree (chs "> **Quote:**") := by unfold nlFree; decide

theorem linesOf_format (content : S) :
    linesOf (_format_for_blockquote content) = bqLines content := by
  unfold _format_for_blockquote bqLines
  split
  · rename_i h
    rcases h with h | h <;> subst h <;> decide
  · apply linesOf_joinNL
    · simp [linesOf_ne_nil]
    · intro l hl
      rcases List.mem_map.1 hl with ⟨m, hm, rfl⟩
      by_cases ht : pyTrim m ≠ []
      · rw [if_pos ht]
        exact nlFree_append _ _ (by unfold nlFree; decide) (nlFree_of_mem_linesOf hm)
      · rw [if_neg ht]
        unfold nlFree
        decide

theorem bqLines_gt (content l : S) (hm : l ∈ bqLines content) : ∃ x, l = '>' :: x := by
  unfold bqLines at hm
  split at hm
  · simp at hm
    subst hm
    exact ⟨' ' :: content, rfl⟩
  · rcases List.mem_map.1 hm with ⟨m, _, rfl⟩
    by_cases ht : pyTrim m ≠ []
    · rw [if_pos ht]
      exact ⟨' ' :: m, rfl⟩
    · rw [if_neg ht]
      exact ⟨[], rfl⟩

theorem answer_lines (i : Nat) (q : S) (r : AnswerRecord) (tail : S) (hq : nlFree q) :
    linesOf (renderR_answer i q r ++ tail) = blockFront i q r ++ linesOf tail := by
  have hq2 : nlFree q := hq
  unfold renderR_answer blockFront
  simp only [chs_nlnl_split, chs_sa_split, chs_la_split, chs_qt_split, List.append_assoc,
    List.cons_append, List.nil_append]
  simp only [linesOf_append_nl, linesOf_cons_nl, linesOf_format, linesOf_append_nlFree,
    linesOf_nlFree, nlFree_chs_q, nlFree_chs_colon, nlFree_chs_sa, nlFree_chs_la,
    nlFree_chs_qt, nlFree_natChars, hq2, consHeadS_cons, consHeadS_nil, List.append_nil,
    List.append_assoc, List.cons_append, List.nil_append]

theorem render_answer_recDict (i : Nat) (q : S) (r : AnswerRecord) :
    render_answer i q (recDict r) = some (renderR_answer i q r) := rfl

theorem render_blocks_qaJ (qa : List (S × AnswerRecord)) (qs : List S) :
    ∀ i : Nat, render_blocks (qaJ qa) i qs = some (renderR_blocks qa i qs) := by
  induction qs with
  | nil => intro i; rfl
  | cons q qs ih =>
    intro i
    unfold render_blocks renderR_blocks
    rw [pyGet_qaJ]
    cases hpg : pyGet qa q with
    | none => simpa using ih (i + 1)
    | some r => simp [render_answer_recDict, ih (i + 1)]

theorem render_section_qaJ (t ts : S) (qs : List S) (qa : List (S × AnswerRecord)) :
    render_section t ts qs (qaJ qa) = some (renderR t ts qs qa) := by
  unfold render_section renderR
  rw [render_blocks_qaJ]
  rfl

theorem renderR_eq_cons (t ts : S) (qs : List S) (qa : List (S × AnswerRecord)) :
    renderR t ts qs qa = '\n' :: renderCore t ts qs qa := rfl

theorem blocks_lines (qa : List (S × AnswerRecord)) (qs : List S) :
    ∀ (i : Nat) (tail : S), (∀ q ∈ qs, nlFree q) →
      linesOf (renderR_blocks qa i qs ++ tail) = blocksLines qa i qs ++ linesOf tail := by
  induction qs with
  | nil => intro i tail h; simp [renderR_blocks, blocksLines]
  | cons q qs ih =>
    intro i tail h
    unfold renderR_blocks blocksLines
    cases hpg : pyGet qa q with
    | none => exact ih (i + 1) tail (fun x hx => h x (List.mem_cons_of_mem _ hx))
    | some r =>
      rw [List.append_assoc]
      rw [answer_lines i q r _ (h q (List.mem_cons_self _ _))]
      rw [ih (i + 1) tail (fun x hx => h x (List.mem_cons_of_mem _ hx))]
      rw [List.append_assoc]

theorem blocks_lines_nil (qa : List (S × AnswerRecord)) (qs : List S) (i : Nat)
    (h : ∀ q ∈ qs, nlFree q) :
    linesOf (renderR_blocks qa i qs) = blocksLines qa i qs ++ [[]] := by
  have e := blocks_lines qa qs i [] h
  rw [List.append_nil] at e
  rw [e]
  rfl

theorem chs_star : chs "*" = '*' :: ([] : S) := rfl

theorem linesOf_cons_star (s : S) : linesOf ('*' :: s) = consHead '*' (linesOf s) := by
  simp [linesOf]

theorem consHead_cons (c : Char) (l : S) (ls : List S) :
    consHead c (l :: ls) = (c :: l) :: ls := rfl

theorem nlFree_chs_h2 : nlFree (chs "## ") := by unfold nlFree; decide

theorem nlFree_chs_proc : nlFree (chs "*Processed on: ") := by unfold nlFree; decide

theorem renderCore_lines (t ts : S) (qs : List S) (qa : List (S × AnswerRecord))
    (ht : nlFree t) (hts : nlFree ts) (hqs : ∀ q ∈ qs, nlFree q) :
    linesOf (renderCore t ts qs qa)
      = headingOf t :: [] :: tsLine ts :: [] :: (blocksLines qa 1 qs ++ [[]]) := by
  have e1 : chs "\n\n*Processed on: " = '\n' :: '\n' :: chs "*Processed on: " := rfl
  have e2 : chs "*\n\n" = '*' :: '\n' :: '\n' :: ([] : S) := rfl
  unfold renderCore tsLine headingOf
  simp only [e1, e2, chs_star, List.append_assoc, List.cons_append, List.nil_append]
  simp only [linesOf_append_nl, linesOf_cons_nl, linesOf_cons_star, linesOf_append_nlFree,
    linesOf_nlFree, nlFree_chs_h2, nlFree_chs_proc, ht, hts, consHeadS_cons, consHeadS_nil,
    consHead_cons, blocks_lines_nil qa qs 1 hqs, List.append_nil, List.append_assoc,
    List.cons_append, List.nil_append]

theorem isH2_star (x : S) : isH2 ('*' :: x) = false := isH2_cons '*' x (by decide)

theorem isH2_gt (x : S) : isH2 ('>' :: x) = false := isH2_cons '>' x (by decide)

theorem blockFront_not_h2 (i : Nat) (q : S) (r : AnswerRecord) :
    ∀ l ∈ blockFront i q r, isH2 l = false := by
  intro l hl
  unfold blockFront at hl
  simp only [List.mem_cons, List.mem_append] at hl
  rcases hl with rfl | rfl | rfl | hl2
  · exact isH2_star _
  · exact isH2_nil
  · exact isH2_gt _
  · rcases hl2 with hb | hl3
    · rcases bqLines_gt _ _ hb with ⟨x, rfl⟩
      exact isH2_gt x
    · rcases hl3 with rfl | rfl | hl4
      · exact isH2_nil
      · exact isH2_gt _
      · rcases hl4 with hb | hl5
        · rcases bqLines_gt _ _ hb with ⟨x, rfl⟩
          exact isH2_gt x
        · rcases hl5 with rfl | rfl | hl6
          · exact isH2_nil
          · exact isH2_gt _
          · rcases hl6 with hb | hl7
            · rcases bqLines_gt _ _ hb with ⟨x, rfl⟩
              exact isH2_gt x
            · rcases hl7 with rfl | h0
              · exact isH2_nil
              · simp at h0

theorem blocksLines_not_h2 (qa : List (S × AnswerRecord)) (qs : List S) :
    ∀ i : Nat, ∀ l ∈ blocksLines qa i qs, isH2 l = false := by
  induction qs with
  | nil => intro i l hl; simp [blocksLines] at hl
  | cons q qs ih =>
    intro i l hl
    unfold blocksLines at hl
    cases hpg : pyGet qa q with
    | none =>
      rw [hpg] at hl
      exact ih (i + 1) l hl
    | some r =>
      rw [hpg] at hl
      rcases List.mem_append.1 hl with h | h
      · exact blockFront_not_h2 i q r l h
      · exact ih (i + 1) l h

theorem mem_of_mem_pyTrimRight (s : S) (c : Char) (h : c ∈ pyTrimRight s) : c ∈ s := by
  unfold pyTrimRight at h
  rw [List.mem_reverse] at h
  have h2 := (List.dropWhile_sublist pyIsSpace).subset h
  simpa using h2

theorem mem_of_mem_pyTrim (s : S) (c : Char) (h : c ∈ pyTrim s) : c ∈ s := by
  unfold pyTrim at h
  have h1 := mem_of_mem_pyTrimRight _ _ h
  unfold pyTrimLeft at h1
  exact (List.dropWhile_sublist _).subset h1

theorem update_eq_of_render (existing t ts : S) (qsl : List S)
    (qar : List (S × JValue)) (ns : S) (hrs : render_section t ts qsl qar = some ns) :
    update_markdown_file existing t ts qsl qar =
      if hasSection t existing then
        match parse_template (pyTrim ns) with
        | none => none
        | some repl => some (subAll (headingOf t) repl (linesOf existing))
      else some (existing ++ ns) := by
  unfold update_markdown_file
  rw [hrs]

theorem subAll_spec (hd repl : S) (A B : List S) (hA : A ≠ [])
    (hmem : ∀ l ∈ A, l ≠ hd) (hB : ∀ l ∈ B, isH2 l = false) :
    subAll hd repl (A ++ hd :: B) = joinNL A ++ '\n' :: repl := by
  induction A with
  | nil => exact absurd rfl hA
  | cons a as ih =>
    cases as with
    | nil =>
      simp only [List.singleton_append]
      rw [subAll_cons_ne hd repl a hd B (hmem a (List.mem_cons_self _ _))]
      rw [subAll_heading hd repl B hB]
      simp [joinNL]
    | cons a2 as2 =>
      have e : (a :: a2 :: as2) ++ hd :: B = a :: ((a2 :: as2) ++ hd :: B) := rfl
      rw [e]
      have e2 : (a2 :: as2) ++ hd :: B = a2 :: (as2 ++ hd :: B) := rfl
      rw [e2]
      rw [subAll_cons_ne hd repl a a2 (as2 ++ hd :: B) (hmem a (List.mem_cons_self _ _))]
      rw [← e2, ih (by simp) (fun l hl => hmem l (List.mem_cons_of_mem _ hl))]
      rw [joinNL_cons_cons]
      simp


theorem upsert_fresh (existing t ts : S) (qs : List S) (qa : List (S × AnswerRecord))
    (hex : hasSection t existing = false) :
    update_markdown_file existing t ts qs (qaJ qa)
      = some (existing ++ renderR t ts qs qa) := by
  rw [update_eq_of_render existing t ts qs (qaJ qa) _ (render_section_qaJ t ts qs qa)]
  simp [hex]

theorem upsert_again (existing t ts : S) (qs : List S) (qa : List (S × AnswerRecord))
    (hex : hasSection t existing = false) (ht : nlFree t) (hts : nlFree ts)
    (hqs : ∀ q ∈ qs, nlFree q) (hbs : '\\' ∉ renderR t ts qs qa) :
    update_markdown_file (existing ++ renderR t ts qs qa) t ts qs (qaJ qa)
      = some (pyTrimRight (existing ++ renderR t ts qs qa)) := by
  obtain ⟨rest0, hcore⟩ : ∃ rest, renderCore t ts qs qa = '#' :: rest := ⟨_, rfl⟩
  have hlines1 : linesOf (existing ++ renderR t ts qs qa)
      = linesOf existing
        ++ (headingOf t :: ([] :: tsLine ts :: [] :: (blocksLines qa 1 qs ++ [[]]))) := by
    rw [renderR_eq_cons, linesOf_append_nl, renderCore_lines t ts qs qa ht hts hqs]
  have hhas : hasSection t (existing ++ renderR t ts qs qa) = true := by
    apply hasSection_true_of_mem
    rw [hlines1]
    exact List.mem_append_right _ (List.mem_cons_self _ _)
  have htrimsect : pyTrim (renderR t ts qs qa) = pyTrimRight (renderCore t ts qs qa) := by
    rw [renderR_eq_cons, pyTrim_nl, hcore, pyTrim_cons_not_space '#' rest0 (by decide)]
  have hTRne : pyTrimRight (renderCore t ts qs qa) ≠ [] := by
    apply pyTrimRight_ne_nil _ '#'
    · rw [hcore]
      exact List.mem_cons_self _ _
    · decide
  have hbs2 : '\\' ∉ pyTrim (renderR t ts qs qa) :=
    fun hm => hbs (mem_of_mem_pyTrim _ _ hm)
  have hpt : parse_template (pyTrim (renderR t ts qs qa))
      = some (pyTrim (renderR t ts qs qa)) := parse_template_of_not_mem _ hbs2
  have hB : ∀ l ∈ ([] :: tsLine ts :: [] :: (blocksLines qa 1 qs ++ [[]]) : List S),
      isH2 l = false := by
    intro l hl
    rcases List.mem_cons.1 hl with rfl | hl
    · exact isH2_nil
    · rcases List.mem_cons.1 hl with rfl | hl
      · exact isH2_star _
      · rcases List.mem_cons.1 hl with rfl | hl
        · exact isH2_nil
        · rcases List.mem_append.1 hl with hl | hl
          · exact blocksLines_not_h2 qa qs 1 l hl
          · rcases List.mem_cons.1 hl with rfl | hl
            · exact isH2_nil
            · simp at hl
  have hsub : subAll (headingOf t) (pyTrim (renderR t ts qs qa))
        (linesOf (existing ++ renderR t ts qs qa))
      = existing ++ '\n' :: pyTrim (renderR t ts qs qa) := by
    rw [hlines1]
    rw [subAll_spec (headingOf t) _ (linesOf existing) _ (linesOf_ne_nil existing)
      ((hasSection_eq_false_iff t existing).1 hex) hB]
    rw [joinNL_linesOf existing]
  have hresult : pyTrimRight (existing ++ renderR t ts qs qa)
      = existing ++ '\n' :: pyTrimRight (renderCore t ts qs qa) := by
    have hne2 : pyTrimRight ('\n' :: renderCore t ts qs qa) ≠ [] := by
      rw [pyTrimRight_cons '\n' _ hTRne]
      simp
    rw [renderR_eq_cons, pyTrimRight_append existing ('\n' :: renderCore t ts qs qa) hne2]
    rw [pyTrimRight_cons '\n' _ hTRne]
  have hpt2 : parse_template (pyTrimRight (renderCore t ts qs qa))
      = some (pyTrimRight (renderCore t ts qs qa)) := by
    rw [← htrimsect]
    exact hpt
  have hsub2 : subAll (headingOf t) (pyTrimRight (renderCore t ts qs qa))
        (linesOf (existing ++ renderR t ts qs qa))
      = existing ++ '\n' :: pyTrimRight (renderCore t ts qs qa) := by
    rw [← htrimsect]
    exact hsub
  rw [update_eq_of_render _ t ts qs (qaJ qa) _ (render_section_qaJ t ts qs qa),
    if_pos hhas, htrimsect]
  simp only [hpt2]
  rw [hsub2, hresult]

/-- C2: corrected.  For a fresh title, calling update_markdown_file twice with
the same title, ordered results and timestamp yields, aside from the timestamp
line (held fixed here), the once-written document with its trailing whitespace
removed: the first call appends the rendered section (which ends in a blank
line), the second call replaces the matched span, which runs to the end of the
document, by the stripped section text.  The hypotheses record that the title,
timestamp and questions contain no newline and that the rendered section
contains no backslash (else the second call raises, see C10). -/
theorem C2_upsert_idempotent_up_to_trailing_whitespace
    (existing t ts : S) (qs : List S) (qa : List (S × AnswerRecord))
    (hex : hasSection t existing = false) (ht : nlFree t) (hts : nlFree ts)
    (hqs : ∀ q ∈ qs, nlFree q) (hbs : '\\' ∉ renderR t ts qs qa) :
    update_markdown_file existing t ts qs (qaJ qa)
        = some (existing ++ renderR t ts qs qa)
    ∧ update_markdown_file (existing ++ renderR t ts qs qa) t ts qs (qaJ qa)
        = some (pyTrimRight (existing ++ renderR t ts qs qa)) :=
  ⟨upsert_fresh existing t ts qs qa hex,
   upsert_again existing t ts qs qa hex ht hts hqs hbs⟩

/-- C2: witness for the corrected statement at a concrete instance. -/
theorem C2_witness :
    update_markdown_file [] (chs "A") (chs "T") [chs "q"] (qaJ qaA0)
        = some ([] ++ renderR (chs "A") (chs "T") [chs "q"] qaA0)
    ∧ update_markdown_file ([] ++ renderR (chs "A") (chs "T") [chs "q"] qaA0)
          (chs "A") (chs "T") [chs "q"] (qaJ qaA0)
        = some (pyTrimRight ([] ++ renderR (chs "A") (chs "T") [chs "q"] qaA0)) :=
  C2_upsert_idempotent_up_to_trailing_whitespace [] (chs "A") (chs "T") [chs "q"] qaA0
    (by decide) (by unfold nlFree; decide) (by unfold nlFree; decide)
    (by
      intro x hx
      rcases List.mem_singleton.1 hx with rfl
      unfold nlFree
      decide)
    (by decide)

/-- C2: counterexample to the claim as stated.  With identical timestamps in
both calls (so the timestamp-line exception is vacuous), two successive
upserts of the same title and results do not produce a document byte-identical
to one upsert: the trailing blank line is lost. -/
theorem C2_counterexample :
    ((update_markdown_file [] (chs "A") (chs "T") [chs "q"] (qaJ qaA0)).bind
        (fun d => update_markdown_file d (chs "A") (chs "T") [chs "q"] (qaJ qaA0)))
      ≠ update_markdown_file [] (chs "A") (chs "T") [chs "q"] (qaJ qaA0) := by
  decide

/-- C1: the code replaces a middle section by gluing the stripped replacement
directly onto the following section's heading line: in a report with sections
Paper A then Paper B, re-processing Paper A leaves no line equal to
"## Paper B" (the heading is fused into the preceding answer line, as the
substring "> NA## Paper B" shows), so the following section's position and
content are not preserved. -/
theorem C1_section_fusion :
    hasSection (chs "Paper B") twoSectionDoc = true
    ∧ (update_markdown_file twoSectionDoc (chs "Paper A") (chs "T1") [chs "q"]
          (qaJ qaA1)).map (hasSection (chs "Paper B")) = some false
    ∧ (update_markdown_file twoSectionDoc (chs "Paper A") (chs "T1") [chs "q"]
          (qaJ qaA1)).map (isSubstr (chs "> NA## Paper B")) = some true := by
  decide

/-- C10: confirmed.  The freshly rendered section text is passed to re.sub as
a replacement template: when the rendered answer content contains the two
characters backslash d and the title's section already exists, the call raises
(none); the append branch for a fresh title accepts the same results. -/
theorem C10_template_escape_raises :
    update_markdown_file oneSectionDoc (chs "A") (chs "T") [chs "q"] (qaJ qaEsc) = none
    ∧ (update_markdown_file oneSectionDoc (chs "B") (chs "T") [chs "q"]
          (qaJ qaEsc)).isSome = true := by
  decide

theorem pyStartsWith_head (c : Char) (p s : S) (h : pyStartsWith (c :: p) s = true) :
    ∃ x, s = c :: x := by
  cases s with
  | nil => simp [pyStartsWith] at h
  | cons d rest =>
    have e : (d :: rest).take (c :: p).length = d :: rest.take p.length := by
      simp [List.take]
    rw [pyStartsWith, e] at h
    have h2 : d :: rest.take p.length = c :: p := by simpa using h
    injection h2 with h3 _
    exact ⟨rest, by rw [h3]⟩

theorem isShort_false_of_long (l : S) (h : isLongLine l = true) : isShortLine l = false := by
  unfold isLongLine at h
  unfold isShortLine
  obtain ⟨x, hx⟩ := pyStartsWith_head 'l' _ _ h
  rw [hx]
  cases hb : pyStartsWith (chs "short answer:") ('l' :: x) with
  | false => rfl
  | true =>
    obtain ⟨y, hy⟩ := pyStartsWith_head 's' _ _ hb
    injection hy with h1 _
    exact absurd h1 (by decide)

theorem isQuote_false_of_long (l : S) (h : isLongLine l = true) : isQuoteLine l = false := by
  unfold isLongLine at h
  unfold isQuoteLine
  obtain ⟨x, hx⟩ := pyStartsWith_head 'l' _ _ h
  rw [hx]
  cases hb : pyStartsWith (chs "quote:") ('l' :: x) with
  | false => rfl
  | true =>
    obtain ⟨y, hy⟩ := pyStartsWith_head 'q' _ _ hb
    injection hy with h1 _
    exact absurd h1 (by decide)

theorem fallbackScan_long (L : List S) :
    ∀ (i : Nat) (sA qA : S) (hi : i < L.length),
      isLongLine (L.get ⟨i, hi⟩) = true →
      (∀ j (hj : j < L.length), j < i → isLongLine (L.get ⟨j, hj⟩) = false) →
      (fallbackScan sA qA L).2.2
        = some (pyTrim (delFirst (chs "long answer:") (joinNL (L.drop i)))) := by
  induction L with
  | nil =>
    intro i sA qA hi
    simp at hi
  | cons l rest ih =>
    intro i sA qA hi hlong hfirst
    cases i with
    | zero =>
      have hl : isLongLine l = true := hlong
      unfold fallbackScan
      rw [isShort_false_of_long l hl, isQuote_false_of_long l hl, hl]
      simp
    | succ i =>
      have hl0 : isLongLine l = false := hfirst 0 (by simp) (by omega)
      have hi2 : i < rest.length := by
        simp at hi
        omega
      have hlong2 : isLongLine (rest.get ⟨i, hi2⟩) = true := hlong
      have hfirst2 : ∀ j (hj : j < rest.length), j < i →
          isLongLine (rest.get ⟨j, hj⟩) = false := by
        intro j hj hji
        exact hfirst (j + 1) (by simp; omega) (by omega)
      have hdrop : (l :: rest).drop (i + 1) = rest.drop i := rfl
      unfold fallbackScan
      rw [hdrop]
      by_cases hs : isShortLine l = true
      · rw [hs]
        simp only [if_true]
        exact ih i _ qA hi2 hlong2 hfirst2
      · rw [Bool.not_eq_true] at hs
        rw [hs]
        by_cases hq : isQuoteLine l = true
        · rw [hq]
          simp only [Bool.false_eq_true, if_false, if_true]
          exact ih i sA _ hi2 hlong2 hfirst2
        · rw [Bool.not_eq_true] at hq
          rw [hq, hl0]
          simp only [Bool.false_eq_true, if_false]
          exact ih i sA qA hi2 hlong2 hfirst2

theorem fallbackScan_short_default (L : List S) :
    ∀ sA qA : S, (∀ l ∈ L, isShortLine l = false) → (fallbackScan sA qA L).1 = sA := by
  induction L with
  | nil => intro sA qA h; rfl
  | cons l rest ih =>
    intro sA qA h
    have hs : isShortLine l = false := h l (List.mem_cons_self _ _)
    unfold fallbackScan
    rw [hs]
    by_cases hq : isQuoteLine l = true
    · rw [hq]
      simp only [Bool.false_eq_true, if_false, if_true]
      exact ih sA _ (fun x hx => h x (List.mem_cons_of_mem _ hx))
    · rw [Bool.not_eq_true] at hq
      rw [hq]
      by_cases hl : isLongLine l = true
      · rw [hl]
        simp
      · rw [Bool.not_eq_true] at hl
        rw [hl]
        simp only [Bool.false_eq_true, if_false]
        exact ih sA qA (fun x hx => h x (List.mem_cons_of_mem _ hx))

theorem fallbackScan_quote_default (L : List S) :
    ∀ sA qA : S, (∀ l ∈ L, isQuoteLine l = false) → (fallbackScan sA qA L).2.1 = qA := by
  induction L with
  | nil => intro sA qA h; rfl
  | cons l rest ih =>
    intro sA qA h
    have hq : isQuoteLine l = false := h l (List.mem_cons_self _ _)
    unfold fallbackScan
    rw [hq]
    by_cases hs : isShortLine l = true
    · rw [hs]
      simp only [if_true]
      exact ih _ qA (fun x hx => h x (List.mem_cons_of_mem _ hx))
    · rw [Bool.not_eq_true] at hs
      rw [hs]
      by_cases hl : isLongLine l = true
      · rw [hl]
        simp
      · rw [Bool.not_eq_true] at hl
        rw [hl]
        simp only [Bool.false_eq_true, if_false]
        exact ih sA qA (fun x hx => h x (List.mem_cons_of_mem _ hx))

theorem fallbackScan_long_default (L : List S) :
    ∀ sA qA : S, (∀ l ∈ L, isLongLine l = false) → (fallbackScan sA qA L).2.2 = none := by
  induction L with
  | nil => intro sA qA h; rfl
  | cons l rest ih =>
    intro sA qA h
    have hl : isLongLine l = false := h l (List.mem_cons_self _ _)
    unfold fallbackScan
    rw [hl]
    by_cases hs : isShortLine l = true
    · rw [hs]
      simp only [if_true]
      exact ih _ qA (fun x hx => h x (List.mem_cons_of_mem _ hx))
    · rw [Bool.not_eq_true] at hs
      rw [hs]
      by_cases hq : isQuoteLine l = true
      · rw [hq]
        simp only [Bool.false_eq_true, if_false, if_true]
        exact ih sA _ (fun x hx => h x (List.mem_cons_of_mem _ hx))
      · rw [Bool.not_eq_true] at hq
        rw [hq]
        simp only [Bool.false_eq_true, if_false]
        exact ih sA qA (fun x hx => h x (List.mem_cons_of_mem _ hx))

/-- C5: corrected.  The first line whose lowercased, stripped form starts with
'long answer:' starts the multi-line capture: the long answer is everything
from that line to the end of the input, with the first occurrence of the exact
lowercase label 'long answer:' in that tail deleted (which strips the leading
label exactly once when it is written in lowercase, but leaves it in place
otherwise) and the result stripped; in particular the documented scenario
parses to X / "Y\nquote: Z" / NA. -/
theorem C5_long_capture (raw : S) (i : Nat) (hi : i < (linesOf raw).length)
    (hlong : isLongLine ((linesOf raw).get ⟨i, hi⟩) = true)
    (hfirst : ∀ j (hj : j < (linesOf raw).length), j < i →
      isLongLine ((linesOf raw).get ⟨j, hj⟩) = false) :
    (_create_fallback_response raw).long_answer
        = pyTrim (delFirst (chs "long answer:") (joinNL ((linesOf raw).drop i)))
    ∧ _create_fallback_response (chs "short answer: X\nlong answer: Y\nquote: Z")
        = ⟨chs "X", chs "Y\nquote: Z", chs "NA"⟩ := by
  constructor
  · unfold _create_fallback_response
    dsimp only
    rw [fallbackScan_long (linesOf raw) i (chs "NA") (chs "NA") hi hlong hfirst]
    rfl
  · decide

/-- C5: witness for the corrected statement at a concrete input. -/
theorem C5_witness :
    (_create_fallback_response (chs "long answer: Y")).long_answer
        = pyTrim (delFirst (chs "long answer:")
            (joinNL ((linesOf (chs "long answer: Y")).drop 0)))
    ∧ _create_fallback_response (chs "short answer: X\nlong answer: Y\nquote: Z")
        = ⟨chs "X", chs "Y\nquote: Z", chs "NA"⟩ :=
  C5_long_capture (chs "long answer: Y") 0 (by decide) (by decide)
    (fun j hj hji => absurd hji (by omega))

/-- C5: counterexample to the claim as stated: for the input "Long answer: Y"
(capitalized label), the label detection is case-insensitive but the deletion
targets the exact lowercase string, so the leading label is not stripped and
the long answer is not "Y". -/
theorem C5_counterexample :
    (_create_fallback_response (chs "Long answer: Y")).long_answer = chs "Long answer: Y"
    ∧ (_create_fallback_response (chs "Long answer: Y")).long_answer ≠ chs "Y" := by
  decide

/-- C6: corrected.  The fallback parser is total and returns all three fields
as strings; short answer and quote default to "NA" when their labels never
occur, and the long answer defaults to the entire raw text when no long-answer
label occurs (hence it is non-empty whenever the raw text is), but it can be
empty: for empty raw text, or when the captured remainder of a present label
strips to nothing. -/
theorem C6_fallback_defaults (raw : S) :
    ((∀ l ∈ linesOf raw, isShortLine l = false) →
      (_create_fallback_response raw).short_answer = chs "NA")
    ∧ ((∀ l ∈ linesOf raw, isQuoteLine l = false) →
      (_create_fallback_response raw).quote = chs "NA")
    ∧ ((∀ l ∈ linesOf raw, isLongLine l = false) →
      (_create_fallback_response raw).long_answer = raw)
    ∧ ((∀ l ∈ linesOf raw, isLongLine l = false) → raw ≠ [] →
      (_create_fallback_response raw).long_answer ≠ []) := by
  refine ⟨?_, ?_, ?_, ?_⟩
  · intro h
    unfold _create_fallback_response
    dsimp only
    rw [fallbackScan_short_default (linesOf raw) _ _ h]
  · intro h
    unfold _create_fallback_response
    dsimp only
    rw [fallbackScan_quote_default (linesOf raw) _ _ h]
  · intro h
    unfold _create_fallback_response
    dsimp only
    rw [fallbackScan_long_default (linesOf raw) _ _ h]
    rfl
  · intro h hne
    unfold _create_fallback_response
    dsimp only
    rw [fallbackScan_long_default (linesOf raw) _ _ h]
    exact hne

/-- C6: witness for the corrected statement at a concrete input. -/
theorem C6_witness :
    (_create_fallback_response (chs "hello")).short_answer = chs "NA"
    ∧ (_create_fallback_response (chs "hello")).quote = chs "NA"
    ∧ (_create_fallback_response (chs "hello")).long_answer = chs "hello"
    ∧ (_create_fallback_response (chs "hello")).long_answer ≠ [] :=
  ⟨(C6_fallback_defaults (chs "hello")).1 (by decide),
   (C6_fallback_defaults (chs "hello")).2.1 (by decide),
   (C6_fallback_defaults (chs "hello")).2.2.1 (by decide),
   (C6_fallback_defaults (chs "hello")).2.2.2 (by decide) (by decide)⟩

/-- C6: counterexample to the claim as stated: the input "long answer:" is not
valid JSON, yet the fallback's long answer is the empty string, refuting
"longAnswer is never empty". -/
theorem C6_counterexample :
    (_create_fallback_response (chs "long answer:")).long_answer = [] := by
  decide

theorem fallback_go_length (qs : List S) :
    ∀ (i : Nat) (seen : List S), (_create_fallback_column_names_go i seen qs).length = qs.length := by
  induction qs with
  | nil => intro i seen; rfl
  | cons q qs ih =>
    intro i seen
    unfold _create_fallback_column_names_go
    simp only [List.length_cons]
    rw [ih]

/-- C3: confirmed (with the fallback modelled from the spec, see
_create_fallback_column_names_go).  For every question list and every outcome
of the naming call (raised, decoded non-list, decoded list of any length),
generate_column_names_from_questions returns a list whose length equals the
number of questions; totality of the Lean function is the never-throws
property. -/
theorem C3_column_names_length (questions : List S) (o : NamingOutcome) :
    (generate_column_names_from_questions questions o).length = questions.length := by
  have hfb : (_create_fallback_column_names questions).length = questions.length :=
    fallback_go_length questions 0 []
  cases o with
  | raised => simp [generate_column_names_from_questions, hfb]
  | responded v =>
    cases v with
    | jarr es =>
      show (if es.length = questions.length then es
        else (_create_fallback_column_names questions).map .jstr).length = questions.length
      split
      · assumption
      · simp [hfb]
    | jstr s => simp [generate_column_names_from_questions, hfb]
    | jnum n => simp [generate_column_names_from_questions, hfb]
    | jbool b => simp [generate_column_names_from_questions, hfb]
    | jnull => simp [generate_column_names_from_questions, hfb]
    | jobj fs => simp [generate_column_names_from_questions, hfb]

theorem allKeysIn_obj_cons (fs : List (S × JValue)) (k : S) (ks : List S) :
    allKeysIn (.jobj fs) (k :: ks)
      = if fs.any (fun p => p.1 == k) then allKeysIn (.jobj fs) ks else .ok false := by
  show (match Except.ok (fs.any (fun p => p.1 == k)) with
        | Except.error e => (Except.error e : Except S Bool)
        | .ok false => .ok false
        | .ok true => allKeysIn (.jobj fs) ks) = _
  cases h : fs.any (fun p => p.1 == k) <;> simp [h]

theorem any_key_of_pyGet (d : List (S × V)) (k : S) (v : V) (h : pyGet d k = some v) :
    d.any (fun p => p.1 == k) = true := by
  unfold pyGet at h
  cases hf : d.find? (fun p => p.1 == k) with
  | none =>
    rw [hf] at h
    simp at h
  | some p =>
    have hp := List.find?_some hf
    have hm := List.mem_of_find?_eq_some hf
    simp only [List.any_eq_true]
    exact ⟨p, hm, hp⟩

/-- C4: confirmed.  When the response text decodes to a JSON object holding
all three string keys, query_gemini returns that object itself (line 253):
the three values are passed through with no transformation. -/
theorem C4_json_passthrough (fs : List (S × JValue)) (raw : S) (sa la qt : S)
    (hs : pyGet fs (chs "short_answer") = some (.jstr sa))
    (hl : pyGet fs (chs "long_answer") = some (.jstr la))
    (hq : pyGet fs (chs "quote") = some (.jstr qt)) :
    query_gemini (.responded raw (some (.jobj fs))) = .jobj fs
    ∧ pyGet fs (chs "short_answer") = some (.jstr sa)
    ∧ pyGet fs (chs "long_answer") = some (.jstr la)
    ∧ pyGet fs (chs "quote") = some (.jstr qt) := by
  have h1 := any_key_of_pyGet fs (chs "short_answer") _ hs
  have h2 := any_key_of_pyGet fs (chs "long_answer") _ hl
  have h3 := any_key_of_pyGet fs (chs "quote") _ hq
  have hall : allKeysIn (.jobj fs) requiredKeys = .ok true := by
    show allKeysIn (.jobj fs)
      [chs "short_answer", chs "long_answer", chs "quote"] = .ok true
    rw [allKeysIn_obj_cons, if_pos h1, allKeysIn_obj_cons, if_pos h2,
      allKeysIn_obj_cons, if_pos h3]
    rfl
  refine ⟨?_, hs, hl, hq⟩
  show (match allKeysIn (.jobj fs) requiredKeys with
        | .ok true => JValue.jobj fs
        | .ok false => recDict (_create_fallback_response raw)
        | .error e => errRecord e) = .jobj fs
  rw [hall]

/-- C4: witness at a concrete three-key object. -/
theorem C4_witness :
    query_gemini (.responded (chs "raw") (some (.jobj
        [(chs "short_answer", JValue.jstr (chs "s")), (chs "long_answer", JValue.jstr (chs "l")),
         (chs "quote", JValue.jstr (chs "NA"))])))
      = .jobj [(chs "short_answer", JValue.jstr (chs "s")), (chs "long_answer", JValue.jstr (chs "l")),
         (chs "quote", JValue.jstr (chs "NA"))]
    ∧ pyGet [(chs "short_answer", JValue.jstr (chs "s")), (chs "long_answer", JValue.jstr (chs "l")),
         (chs "quote", JValue.jstr (chs "NA"))] (chs "short_answer") = some (JValue.jstr (chs "s"))
    ∧ pyGet [(chs "short_answer", JValue.jstr (chs "s")), (chs "long_answer", JValue.jstr (chs "l")),
         (chs "quote", JValue.jstr (chs "NA"))] (chs "long_answer") = some (JValue.jstr (chs "l"))
    ∧ pyGet [(chs "short_answer", JValue.jstr (chs "s")), (chs "long_answer", JValue.jstr (chs "l")),
         (chs "quote", JValue.jstr (chs "NA"))] (chs "quote") = some (JValue.jstr (chs "NA")) :=
  C4_json_passthrough
    [(chs "short_answer", JValue.jstr (chs "s")), (chs "long_answer", JValue.jstr (chs "l")),
     (chs "quote", JValue.jstr (chs "NA"))]
    (chs "raw") (chs "s") (chs "l") (chs "NA") rfl rfl rfl

theorem pyGet_map_overwrite_self (d : List (S × V)) (k : S) (v : V)
    (hany : d.any (fun p => p.1 == k) = true) :
    pyGet (d.map (fun p => if p.1 == k then (k, v) else p)) k = some v := by
  induction d with
  | nil => simp at hany
  | cons p ps ih =>
    simp only [List.map_cons]
    by_cases hp : (p.1 == k) = true
    · rw [if_pos hp, pyGet_cons]
      simp
    · rw [if_neg hp, pyGet_cons, if_neg hp]
      apply ih
      simp only [List.any_cons, Bool.or_eq_true] at hany
      rcases hany with h | h
      · exact absurd h hp
      · exact h

theorem pyGet_map_overwrite_other (d : List (S × V)) (k k2 : S) (v : V) (hne : k2 ≠ k) :
    pyGet (d.map (fun p => if p.1 == k then (k, v) else p)) k2 = pyGet d k2 := by
  induction d with
  | nil => rfl
  | cons p ps ih =>
    simp only [List.map_cons]
    by_cases hp : (p.1 == k) = true
    · have hpk : p.1 = k := by simpa using hp
      have h1 : (k == k2) = false := by
        simp only [beq_eq_false_iff_ne]
        exact fun e => hne e.symm
      have h2 : (p.1 == k2) = false := by rw [hpk]; exact h1
      rw [if_pos hp, pyGet_cons, pyGet_cons]
      simp only [h1, h2, Bool.false_eq_true, if_false]
      exact ih
    · rw [if_neg hp, pyGet_cons, pyGet_cons]
      by_cases hpk2 : (p.1 == k2) = true
      · simp [hpk2]
      · simp only [hpk2, Bool.false_eq_true, if_false, if_neg hpk2]
        exact ih

theorem pyGet_append_single_other (d : List (S × V)) (k k2 : S) (v : V) (hne : k2 ≠ k) :
    pyGet (d ++ [(k, v)]) k2 = pyGet d k2 := by
  induction d with
  | nil =>
    have h1 : (k == k2) = false := by
      simp only [beq_eq_false_iff_ne]
      exact fun e => hne e.symm
    simp only [List.nil_append]
    rw [pyGet_cons]
    simp [h1, pyGet]
  | cons p ps ih =>
    simp only [List.cons_append]
    rw [pyGet_cons, pyGet_cons]
    by_cases hp : (p.1 == k2) = true
    · simp [hp]
    · simp only [hp, Bool.false_eq_true, if_false]
      exact ih

theorem pyGet_append_single_self (d : List (S × V)) (k : S) (v : V)
    (hnone : d.any (fun p => p.1 == k) = false) :
    pyGet (d ++ [(k, v)]) k = some v := by
  induction d with
  | nil =>
    simp only [List.nil_append]
    rw [pyGet_cons]
    simp
  | cons p ps ih =>
    simp only [List.any_cons, Bool.or_eq_false_iff] at hnone
    obtain ⟨h1, h2⟩ := hnone
    simp only [List.cons_append]
    rw [pyGet_cons, if_neg (by simp [h1])]
    exact ih h2

theorem pyGet_dictSet_self (d : List (S × V)) (k : S) (v : V) :
    pyGet (dictSet d k v) k = some v := by
  unfold dictSet
  split
  · exact pyGet_map_overwrite_self d k v (by assumption)
  · rename_i hany
    rw [Bool.not_eq_true] at hany
    exact pyGet_append_single_self d k v hany

theorem pyGet_dictSet_other (d : List (S × V)) (k k2 : S) (v : V) (hne : k2 ≠ k) :
    pyGet (dictSet d k v) k2 = pyGet d k2 := by
  unfold dictSet
  split
  · exact pyGet_map_overwrite_other d k k2 v hne
  · exact pyGet_append_single_other d k k2 v hne

theorem process_pdf_fold (f : S → GenOutcome) (qs : List S) :
    ∀ (init : List (S × JValue)) (q : S),
      pyGet (qs.foldl (fun r x => dictSet r x (query_gemini (f x))) init) q
        = if q ∈ qs then some (query_gemini (f q)) else pyGet init q := by
  induction qs with
  | nil => intro init q; simp
  | cons x xs ih =>
    intro init q
    simp only [List.foldl_cons]
    rw [ih]
    by_cases hq : q ∈ xs
    · rw [if_pos hq, if_pos (List.mem_cons_of_mem _ hq)]
    · rw [if_neg hq]
      by_cases hqx : q = x
      · subst hqx
        rw [pyGet_dictSet_self, if_pos (List.mem_cons_self _ _)]
      · rw [pyGet_dictSet_other _ _ _ _ hqx, if_neg (by simp [hqx, hq])]

/-- C8: confirmed.  A question whose QA call raises does not fail the
document: process_pdf records for it the degraded record whose short and long
answers are the error text and whose quote is "NA", and every question of the
run, including those after the failing one, still has a recorded answer. -/
theorem C8_query_error_recorded (questions : List S) (f : S → GenOutcome) (q : S) (e : S)
    (hq : q ∈ questions) (hf : f q = .raised e) :
    pyGet (process_pdf questions f) q
        = some (recDict ⟨errText e, errText e, chs "NA"⟩)
    ∧ ∀ q2 ∈ questions, (pyGet (process_pdf questions f) q2).isSome = true := by
  constructor
  · unfold process_pdf
    rw [process_pdf_fold f questions [] q, if_pos hq, hf]
    rfl
  · intro q2 hq2
    unfold process_pdf
    rw [process_pdf_fold f questions [] q2, if_pos hq2]
    rfl

/-- C8: witness at a run of two questions whose second call raises. -/
theorem C8_witness :
    pyGet (process_pdf [chs "a", chs "b"]
        (fun x => if x = chs "b" then GenOutcome.raised (chs "boom")
          else GenOutcome.responded (chs "t") none)) (chs "b")
      = some (recDict ⟨errText (chs "boom"), errText (chs "boom"), chs "NA"⟩)
    ∧ ∀ q2 ∈ [chs "a", chs "b"],
        (pyGet (process_pdf [chs "a", chs "b"]
          (fun x => if x = chs "b" then GenOutcome.raised (chs "boom")
            else GenOutcome.responded (chs "t") none)) q2).isSome = true :=
  C8_query_error_recorded [chs "a", chs "b"]
    (fun x => if x = chs "b" then GenOutcome.raised (chs "boom")
      else GenOutcome.responded (chs "t") none)
    (chs "b") (chs "boom") (by decide) (by rfl)

theorem dictSet_fresh (d : List (S × V)) (k : S) (v : V) (h : ∀ p ∈ d, p.1 ≠ k) :
    dictSet d k v = d ++ [(k, v)] := by
  unfold dictSet
  rw [if_neg]
  intro hany
  simp only [List.any_eq_true] at hany
  obtain ⟨p, hp, hpk⟩ := hany
  exact h p hp (by simpa using hpk)

theorem enumFrom_fst_bounds (qs : List α) :
    ∀ (k : Nat) (p : Nat × α), p ∈ enumFrom k qs → k ≤ p.1 ∧ p.1 < k + qs.length := by
  induction qs with
  | nil => intro k p hp; simp [enumFrom] at hp
  | cons q qs ih =>
    intro k p hp
    rcases List.mem_cons.1 hp with rfl | hp
    · simp
    · have := ih (k + 1) p hp
      simp only [List.length_cons]
      omega

theorem xlsxRow_fold (qs cns : List S) (qa : List (S × JValue)) :
    ∀ (k : Nat) (acc : List (S × JValue)),
      (∀ j, k ≤ j → j < k + qs.length → ∀ p ∈ acc, p.1 ≠ xlsxColName cns j) →
      (∀ i j, k ≤ i → i < j → j < k + qs.length → xlsxColName cns i ≠ xlsxColName cns j) →
      (enumFrom k qs).foldl
          (fun row iq => dictSet row (xlsxColName cns iq.1)
            (extract_short_answer ((pyGet qa iq.2).getD (.jobj [])))) acc
        = acc ++ (enumFrom k qs).map (fun p => (xlsxColName cns p.1,
            extract_short_answer ((pyGet qa p.2).getD (.jobj [])))) := by
  induction qs with
  | nil => intro k acc hacc hdist; simp [enumFrom]
  | cons q qs ih =>
    intro k acc hacc hdist
    have hlen : (q :: qs).length = qs.length + 1 := rfl
    simp only [enumFrom, List.foldl_cons, List.map_cons]
    rw [dictSet_fresh acc (xlsxColName cns k) _
      (hacc k (Nat.le_refl k) (by simp only [List.length_cons]; omega))]
    rw [ih (k + 1) _ ?hacc2 ?hdist2]
    · simp
    case hacc2 =>
      intro j hj1 hj2 p hp
      rcases List.mem_append.1 hp with hp | hp
      · exact hacc j (by omega) (by simp only [List.length_cons]; omega) p hp
      · rcases List.mem_singleton.1 hp with rfl
        exact hdist k j (Nat.le_refl k) (by omega) (by simp only [List.length_cons]; omega)
    case hdist2 =>
      intro i j hi hij hj
      exact hdist i j (by omega) hij (by simp only [List.length_cons]; omega)

theorem xlsxRow_eq (qs cns : List S) (title : S) (qa : List (S × JValue))
    (hdist : ∀ i j, i < j → j < qs.length → xlsxColName cns i ≠ xlsxColName cns j)
    (hpd : ∀ i, i < qs.length → xlsxColName cns i ≠ chs "PDF_Title") :
    xlsxRow qs cns title qa
      = (chs "PDF_Title", .jstr title)
        :: (enumFrom 0 qs).map (fun p => (xlsxColName cns p.1,
              extract_short_answer ((pyGet qa p.2).getD (.jobj [])))) := by
  unfold xlsxRow
  rw [xlsxRow_fold qs cns qa 0 _ ?hacc ?hdist0]
  · simp
  case hacc =>
    intro j _ hj p hp
    rcases List.mem_singleton.1 hp with rfl
    exact fun e => hpd j (by omega) e.symm
  case hdist0 =>
    intro i j _ hij hj
    exact hdist i j hij (by omega)

theorem pyGet_enum_map (cns : List S) (qa : List (S × JValue)) (qs : List S) :
    ∀ (k : Nat),
      (∀ i j, k ≤ i → i < j → j < k + qs.length → xlsxColName cns i ≠ xlsxColName cns j) →
      ∀ p ∈ enumFrom k qs,
        pyGet ((enumFrom k qs).map (fun r => (xlsxColName cns r.1,
            extract_short_answer ((pyGet qa r.2).getD (.jobj []))))) (xlsxColName cns p.1)
          = some (extract_short_answer ((pyGet qa p.2).getD (.jobj []))) := by
  induction qs with
  | nil => intro k _ p hp; simp [enumFrom] at hp
  | cons q qs ih =>
    intro k hdist p hp
    simp only [enumFrom, List.map_cons]
    rcases List.mem_cons.1 hp with rfl | hp
    · rw [pyGet_cons]
      simp
    · have hb := enumFrom_fst_bounds qs (k + 1) p hp
      have hne : xlsxColName cns k ≠ xlsxColName cns p.1 := by
        apply hdist k p.1 (Nat.le_refl k) (by omega)
        simp only [List.length_cons]
        omega
      rw [pyGet_cons, if_neg (by simpa using hne)]
      exact ih (k + 1)
        (fun i j hi hij hj => hdist i j (by omega) hij
          (by simp only [List.length_cons]; omega))
        p hp

/-- C7: confirmed (under distinct effective column names, PDF_Title excluded,
as a run's generated or fallback names provide).  The export has exactly one
row per entry of the accumulated result dict, in insertion order; each row
starts with the document title under the fixed PDF_Title header and then,
per question in question order, holds under that question's effective column
name the short-answer projection of the document's record for it, with
"NA" when the document has no record for that question. -/
theorem C7_export_rows (R : List (S × List (S × JValue))) (qs cns : List S)
    (hdist : ∀ i j, i < j → j < qs.length → xlsxColName cns i ≠ xlsxColName cns j)
    (hpd : ∀ i, i < qs.length → xlsxColName cns i ≠ chs "PDF_Title") :
    export_to_xlsx_rows R qs cns
      = R.map (fun tr => (chs "PDF_Title", JValue.jstr tr.1)
          :: (enumFrom 0 qs).map (fun p => (xlsxColName cns p.1,
                extract_short_answer ((pyGet tr.2 p.2).getD (.jobj [])))))
    ∧ (export_to_xlsx_rows R qs cns).length = R.length
    ∧ (∀ (title : S) (qa : List (S × JValue)), ∀ p ∈ enumFrom 0 qs,
        pyGet (xlsxRow qs cns title qa) (xlsxColName cns p.1)
          = some (extract_short_answer ((pyGet qa p.2).getD (.jobj []))))
    ∧ (∀ (title : S) (qa : List (S × JValue)), ∀ p ∈ enumFrom 0 qs, pyGet qa p.2 = none →
        pyGet (xlsxRow qs cns title qa) (xlsxColName cns p.1)
          = some (.jstr (chs "NA"))) := by
  have hrow : ∀ (title : S) (qa : List (S × JValue)), xlsxRow qs cns title qa
      = (chs "PDF_Title", JValue.jstr title)
        :: (enumFrom 0 qs).map (fun p => (xlsxColName cns p.1,
              extract_short_answer ((pyGet qa p.2).getD (.jobj [])))) :=
    fun title qa => xlsxRow_eq qs cns title qa hdist hpd
  have hcell : ∀ (title : S) (qa : List (S × JValue)), ∀ p ∈ enumFrom 0 qs,
      pyGet (xlsxRow qs cns title qa) (xlsxColName cns p.1)
        = some (extract_short_answer ((pyGet qa p.2).getD (.jobj []))) := by
    intro title qa p hp
    rw [hrow title qa, pyGet_cons, if_neg ?hk]
    · exact pyGet_enum_map cns qa qs 0
        (fun i j _ hij hj => hdist i j hij (by omega)) p hp
    case hk =>
      have hb := enumFrom_fst_bounds qs 0 p hp
      have hne := hpd p.1 (by omega)
      simpa using fun e => hne e.symm
  refine ⟨?_, ?_, hcell, ?_⟩
  · unfold export_to_xlsx_rows
    apply List.map_congr_left
    intro tr _
    exact hrow tr.1 tr.2
  · simp [export_to_xlsx_rows]
  · intro title qa p hp hnone
    have hc := hcell title qa p hp
    rw [hnone] at hc
    exact hc

/-- C7: witness at two documents and two questions with distinct column
names, the second document lacking the second question's record. -/
theorem C7_witness :
    export_to_xlsx_rows
        [(chs "Doc1", [(chs "q1", recDict ⟨chs "a", chs "b", chs "NA"⟩),
                       (chs "q2", recDict ⟨chs "c", chs "d", chs "NA"⟩)]),
         (chs "Doc2", [(chs "q1", recDict ⟨chs "e", chs "f", chs "NA"⟩)])]
        [chs "q1", chs "q2"] [chs "Col_A", chs "Col_B"]
      = [(chs "Doc1", [(chs "q1", recDict ⟨chs "a", chs "b", chs "NA"⟩),
                       (chs "q2", recDict ⟨chs "c", chs "d", chs "NA"⟩)]),
         (chs "Doc2", [(chs "q1", recDict ⟨chs "e", chs "f", chs "NA"⟩)])].map
          (fun tr => (chs "PDF_Title", JValue.jstr tr.1)
            :: (enumFrom 0 [chs "q1", chs "q2"]).map
                (fun p => (xlsxColName [chs "Col_A", chs "Col_B"] p.1,
                  extract_short_answer ((pyGet tr.2 p.2).getD (.jobj [])))))
    ∧ (export_to_xlsx_rows
        [(chs "Doc1", [(chs "q1", recDict ⟨chs "a", chs "b", chs "NA"⟩),
                       (chs "q2", recDict ⟨chs "c", chs "d", chs "NA"⟩)]),
         (chs "Doc2", [(chs "q1", recDict ⟨chs "e", chs "f", chs "NA"⟩)])]
        [chs "q1", chs "q2"] [chs "Col_A", chs "Col_B"]).length
      = ([(chs "Doc1", [(chs "q1", recDict ⟨chs "a", chs "b", chs "NA"⟩),
                       (chs "q2", recDict ⟨chs "c", chs "d", chs "NA"⟩)]),
         (chs "Doc2", [(chs "q1", recDict ⟨chs "e", chs "f", chs "NA"⟩)])] :
          List (S × List (S × JValue))).length
    ∧ (∀ (title : S) (qa : List (S × JValue)), ∀ p ∈ enumFrom 0 [chs "q1", chs "q2"],
        pyGet (xlsxRow [chs "q1", chs "q2"] [chs "Col_A", chs "Col_B"] title qa)
            (xlsxColName [chs "Col_A", chs "Col_B"] p.1)
          = some (extract_short_answer ((pyGet qa p.2).getD (.jobj []))))
    ∧ (∀ (title : S) (qa : List (S × JValue)), ∀ p ∈ enumFrom 0 [chs "q1", chs "q2"],
        pyGet qa p.2 = none →
        pyGet (xlsxRow [chs "q1", chs "q2"] [chs "Col_A", chs "Col_B"] title qa)
            (xlsxColName [chs "Col_A", chs "Col_B"] p.1)
          = some (.jstr (chs "NA"))) :=
  C7_export_rows
    [(chs "Doc1", [(chs "q1", recDict ⟨chs "a", chs "b", chs "NA"⟩),
                   (chs "q2", recDict ⟨chs "c", chs "d", chs "NA"⟩)]),
     (chs "Doc2", [(chs "q1", recDict ⟨chs "e", chs "f", chs "NA"⟩)])]
    [chs "q1", chs "q2"] [chs "Col_A", chs "Col_B"]
    (by
      intro i j hij hj
      have hj2 : j < 2 := by simpa using hj
      have hij2 : i = 0 ∧ j = 1 := by omega
      obtain ⟨rfl, rfl⟩ := hij2
      decide)
    (by
      intro i hi
      have hi2 : i < 2 := by simpa using hi
      have : i = 0 ∨ i = 1 := by omega
      rcases this with rfl | rfl <;> decide)

theorem pyStartsWith_cons_cons (c : Char) (p s : S) :
    pyStartsWith (c :: p) (c :: s) = pyStartsWith p s := by
  show ((c :: s).take (c :: p).length == c :: p) = (s.take p.length == p)
  rw [show (c :: s).take (c :: p).length = c :: s.take p.length from rfl]
  show (c == c && (s.take p.length == p)) = _
  simp

theorem pyStartsWith_cons_ne (c d : Char) (p s : S) (hcd : d ≠ c) :
    pyStartsWith (c :: p) (d :: s) = false := by
  cases hb : pyStartsWith (c :: p) (d :: s) with
  | false => rfl
  | true =>
    obtain ⟨x, hx⟩ := pyStartsWith_head c _ _ hb
    injection hx with h1 _
    exact absurd h1 hcd

theorem pyStartsWith_self_append (p x : S) : pyStartsWith p (p ++ x) = true := by
  unfold pyStartsWith
  rw [List.take_left]
  simp

theorem notQ_nil : pyStartsWith (chs "**Q") ([] : S) = false := by decide

theorem notQ_heading (t : S) : pyStartsWith (chs "**Q") (headingOf t) = false :=
  pyStartsWith_cons_ne '*' '#' _ _ (by decide)

theorem notQ_tsLine (ts : S) : pyStartsWith (chs "**Q") (tsLine ts) = false := by
  have e := pyStartsWith_cons_cons '*' (chs "*Q")
    ((chs "Processed on: " ++ ts) ++ chs "*")
  rw [show pyStartsWith (chs "**Q") (tsLine ts)
      = pyStartsWith ('*' :: chs "*Q") ('*' :: ((chs "Processed on: " ++ ts) ++ chs "*"))
    from rfl]
  rw [e]
  exact pyStartsWith_cons_ne '*' 'P' _ _ (by decide)

theorem notQ_gt (x : S) : pyStartsWith (chs "**Q") ('>' :: x) = false :=
  pyStartsWith_cons_ne '*' '>' _ _ (by decide)

theorem yesQ_label (rest : S) : pyStartsWith (chs "**Q") (chs "**Q" ++ rest) = true :=
  pyStartsWith_self_append _ _

theorem notQ_sa_lit : pyStartsWith (chs "**Q") (chs "> **Short Answer:**") = false := by
  decide

theorem notQ_la_lit : pyStartsWith (chs "**Q") (chs "> **Long Answer:**") = false := by
  decide

theorem notQ_qt_lit : pyStartsWith (chs "**Q") (chs "> **Quote:**") = false := by
  decide

theorem bqLines_filter_nil (content : S) :
    (bqLines content).filter (fun l => pyStartsWith (chs "**Q") l) = [] := by
  rw [List.filter_eq_nil_iff]
  intro l hm
  rcases bqLines_gt content l hm with ⟨x, rfl⟩
  simp [notQ_gt x]

theorem blockFront_filter (i : Nat) (q : S) (r : AnswerRecord) :
    (blockFront i q r).filter (fun l => pyStartsWith (chs "**Q") l)
      = [chs "**Q" ++ natChars i ++ chs ":** " ++ q] := by
  unfold blockFront
  simp only [List.append_assoc, List.filter_cons, List.filter_append, bqLines_filter_nil,
    yesQ_label, notQ_nil, notQ_sa_lit, notQ_la_lit, notQ_qt_lit, List.append_assoc]
  simp

theorem blocksLines_filter (qa : List (S × AnswerRecord)) (qs : List S) :
    ∀ i : Nat, (∀ q ∈ qs, (pyGet qa q).isSome = true) →
      (blocksLines qa i qs).filter (fun l => pyStartsWith (chs "**Q") l)
        = (enumFrom i qs).map (fun p => chs "**Q" ++ natChars p.1 ++ chs ":** " ++ p.2) := by
  induction qs with
  | nil => intro i h; rfl
  | cons q qs ih =>
    intro i h
    unfold blocksLines
    cases hpg : pyGet qa q with
    | none =>
      have hs := h q (List.mem_cons_self _ _)
      rw [hpg] at hs
      simp at hs
    | some r =>
      rw [List.filter_append, blockFront_filter,
        ih (i + 1) (fun x hx => h x (List.mem_cons_of_mem _ hx))]
      simp [enumFrom]

/-- C9: confirmed.  The rendered section opens with the heading and the
processed-timestamp line; after them it contains exactly one question-label
line per (question, record) pair, in the supplied question order, labelled
with the 1-based indices Q1..Qn of that order (all results present, as a run
produces); and for a fresh title the section is appended verbatim by
update_markdown_file. -/
theorem C9_render_numbering (t ts : S) (qs : List S) (qa : List (S × AnswerRecord))
    (ht : nlFree t) (hts : nlFree ts) (hqs : ∀ q ∈ qs, nlFree q)
    (hall : ∀ q ∈ qs, (pyGet qa q).isSome = true) :
    (∃ rest, linesOf (renderR t ts qs qa)
        = [] :: headingOf t :: [] :: tsLine ts :: [] :: rest)
    ∧ (linesOf (renderR t ts qs qa)).filter (fun l => pyStartsWith (chs "**Q") l)
        = (enumFrom 1 qs).map (fun p => chs "**Q" ++ natChars p.1 ++ chs ":** " ++ p.2)
    ∧ ∀ existing : S, hasSection t existing = false →
        update_markdown_file existing t ts qs (qaJ qa)
          = some (existing ++ renderR t ts qs qa) := by
  have hl : linesOf (renderR t ts qs qa)
      = [] :: headingOf t :: [] :: tsLine ts :: [] :: (blocksLines qa 1 qs ++ [[]]) := by
    rw [renderR_eq_cons, linesOf_cons_nl, renderCore_lines t ts qs qa ht hts hqs]
  refine ⟨⟨blocksLines qa 1 qs ++ [[]], hl⟩, ?_, ?_⟩
  · rw [hl]
    simp only [List.filter_cons, List.filter_append, notQ_nil, notQ_heading t,
      notQ_tsLine ts, Bool.false_eq_true, if_false, blocksLines_filter qa qs 1 hall]
    simp
  · intro existing hex
    exact upsert_fresh existing t ts qs qa hex

/-- C9: witness at a one-question run. -/
theorem C9_witness :
    (∃ rest, linesOf (renderR (chs "A") (chs "T") [chs "q"] qaA0)
        = [] :: headingOf (chs "A") :: [] :: tsLine (chs "T") :: [] :: rest)
    ∧ (linesOf (renderR (chs "A") (chs "T") [chs "q"] qaA0)).filter
          (fun l => pyStartsWith (chs "**Q") l)
        = (enumFrom 1 [chs "q"]).map
            (fun p => chs "**Q" ++ natChars p.1 ++ chs ":** " ++ p.2)
    ∧ ∀ existing : S, hasSection (chs "A") existing = false →
        update_markdown_file existing (chs "A") (chs "T") [chs "q"] (qaJ qaA0)
          = some (existing ++ renderR (chs "A") (chs "T") [chs "q"] qaA0) :=
  C9_render_numbering (chs "A") (chs "T") [chs "q"] qaA0
    (by unfold nlFree; decide) (by unfold nlFree; decide)
    (by
      intro x hx
      rcases List.mem_singleton.1 hx with rfl
      unfold nlFree
      decide)
    (by
      intro x hx
      rcases List.mem_singleton.1 hx with rfl
      decide)
